import Mathlib

set_option maxHeartbeats 1000000

/-!
Verification development for the FHIR registry physician-extraction pipeline
(`NDJSON_DataParsing.py`).  The Python program is shallowly embedded: Python
strings become `List Char`, Python dicts become association lists or maps with
Python semantics (insertion order, last-write-wins), optional/absent values
become `Option`, and statements that can raise an uncaught exception return
`Except`.
-/

/-- Python strings are modelled as lists of characters. -/
abbrev PyStr := List Char

/-- Python truthiness of an optional string: `None` and `""` are falsy. -/
def truthy : Option PyStr → Bool
  | none => false
  | some s => !s.isEmpty

/-- The whitespace characters stripped by Python `str.strip()` (ASCII range,
which is all this data contains). -/
def isPySpace (c : Char) : Bool :=
  c = ' ' || c = '\t' || c = '\n' || c = '\r' || c = '\u000B' || c = '\u000C'

/-- Python `str.strip()`: drop leading and trailing whitespace. -/
def stripStr (s : PyStr) : PyStr :=
  ((s.dropWhile isPySpace).reverse.dropWhile isPySpace).reverse

/-- The ASCII uppercase/lowercase letter pairs; used to model Python
`str.lower()`, which on this data only ever sees basic latin characters
(this agrees with `Char.toLower` on every character). -/
def upperLowerPairs : List (Char × Char) :=
  [('A','a'),('B','b'),('C','c'),('D','d'),('E','e'),('F','f'),('G','g'),
   ('H','h'),('I','i'),('J','j'),('K','k'),('L','l'),('M','m'),('N','n'),
   ('O','o'),('P','p'),('Q','q'),('R','r'),('S','s'),('T','t'),('U','u'),
   ('V','v'),('W','w'),('X','x'),('Y','y'),('Z','z')]

/-- Lowercase a single character (Python `str.lower`, basic latin). -/
def pyLowerChar (c : Char) : Char :=
  ((upperLowerPairs.find? (fun p => p.1 = c)).map Prod.snd).getD c

/-- Python `str.lower()`. -/
def lowerStr (s : PyStr) : PyStr := s.map pyLowerChar

/-- `normalize_location_key` from the source: falsy references map to `None`;
otherwise strip, lowercase, and prepend `"location/"` unless already present. -/
def normalize_location_key (ref : Option PyStr) : Option PyStr :=
  match ref with
  | none => none
  | some r =>
    if r.isEmpty then none
    else if "location/".data.isPrefixOf (lowerStr (stripStr r)) then
      some (lowerStr (stripStr r))
    else some ("location/".data ++ lowerStr (stripStr r))

/-! ### STEP 3: the location lookup -/

/-- A structured FHIR address: the fields the program reads. -/
structure AddressObj where
  line : List PyStr
  city : Option PyStr
  state : Option PyStr
  postalCode : Option PyStr
  country : Option PyStr
deriving DecidableEq

/-- The `{}` default of `rec.get("address", {})`. -/
def emptyAddress : AddressObj := ⟨[], none, none, none, none⟩

/-- Python `" ".join`. -/
def spaceJoin (xs : List PyStr) : PyStr := List.intercalate " ".data xs

/-- `", ".join(filter(None, parts)).strip()`: absent parts are passed in as
`""`, and `filter(None, ...)` drops the falsy (empty) ones. -/
def joinAddressParts (xs : List PyStr) : PyStr :=
  stripStr (List.intercalate ", ".data (xs.filter (fun s => !s.isEmpty)))

/-- The formatted address string built in STEP 3 and STEP 5. -/
def formatAddress (a : AddressObj) : PyStr :=
  joinAddressParts [spaceJoin a.line, a.city.getD [], a.state.getD [],
    a.postalCode.getD [], a.country.getD []]

/-- A location record: the fields STEP 3 reads. -/
structure LocationRecord where
  id : Option PyStr
  name : Option PyStr
  address : Option AddressObj
deriving DecidableEq

/-- `full = f"{name} ({address})" if name else address`, with
`name = rec.get("name", "")`. -/
def locationValue (rec : LocationRecord) : PyStr :=
  let name := rec.name.getD []
  let address := formatAddress (rec.address.getD emptyAddress)
  if !name.isEmpty then name ++ " (".data ++ address ++ ")".data else address

/-- The location lookup dict, used only via item assignment and `.get`,
modelled as its lookup function (keys may be `None`, as in Python). -/
def emptyLookup : Option PyStr → Option PyStr := fun _ => none

/-- Python `d[k] = v`. -/
def lookupInsert (m : Option PyStr → Option PyStr) (k : Option PyStr) (v : PyStr) :
    Option PyStr → Option PyStr :=
  fun q => if q = k then some v else m q

/-- STEP 3, one record: `location_lookup[normalize_location_key(loc_id)] = full`.
The insert is unconditional — an absent/empty id inserts under the `None` key. -/
def locationStep (m : Option PyStr → Option PyStr) (rec : LocationRecord) :
    Option PyStr → Option PyStr :=
  lookupInsert m (normalize_location_key rec.id) (locationValue rec)

/-- STEP 3: build the location lookup from the whole record stream. -/
def buildLocationLookup (recs : List LocationRecord) : Option PyStr → Option PyStr :=
  recs.foldl locationStep emptyLookup

/-- Specification-side description of the lookup contents: the last record in
the stream whose normalized id equals the key. -/
def lastMatch (recs : List LocationRecord) (k : Option PyStr) : Option LocationRecord :=
  match recs with
  | [] => none
  | r :: rest =>
    match lastMatch rest k with
    | some r' => some r'
    | none => if normalize_location_key r.id = k then some r else none

/-! ### STEP 5: practitioner extraction with batching -/

/-- A telecom entry: the fields the program reads. -/
structure Telecom where
  system : Option PyStr
  value : Option PyStr
deriving DecidableEq

/-- A name entry; `prefixes` embeds the source field `prefix`
(a Lean keyword). -/
structure HumanName where
  prefixes : List PyStr
  given : List PyStr
  family : Option PyStr
deriving DecidableEq

/-- An identifier entry.  The program subscripts `i['value']` directly
(FHIR identifiers always carry a value), so `value` is not optional. -/
structure Identifier where
  system : Option PyStr
  value : PyStr
deriving DecidableEq

/-- A practitioner record: the fields STEP 5 reads.  `name = []` covers both
an absent and an empty Python list (`rec.get("name") or [{}]`). -/
structure PractRecord where
  id : Option PyStr
  name : List HumanName
  telecom : List Telecom
  address : List AddressObj
  organization : Option PyStr
  identifier : List Identifier
deriving DecidableEq

/-- The `{}` fallback entry of `(rec.get("name") or [{}])[0]`. -/
def emptyHumanName : HumanName := ⟨[], [], none⟩

/-- One iteration of the STEP 5 telecom loop. -/
def scanStep (pe : Option PyStr × Option PyStr) (t : Telecom) :
    Option PyStr × Option PyStr :=
  if t.system = some "phone".data then (t.value, pe.2)
  else if t.system = some "email".data then (pe.1, t.value)
  else pe

/-- The STEP 5 telecom scan: later matching entries overwrite earlier ones. -/
def scanTelecom (ts : List Telecom) : Option PyStr × Option PyStr :=
  ts.foldl scanStep (none, none)

/-- Python `str.endswith`. -/
def endsWithStr (suf s : PyStr) : Bool := suf.isSuffixOf s

/-- A flattened practitioner row as built in STEP 5 (the six activity columns
are absent placeholders until the merge stage computes them, so they are not
part of the row). -/
structure Row where
  provider_id : PyStr
  npi : Option PyStr
  name : PyStr
  phone : Option PyStr
  email : Option PyStr
  address : PyStr
  organization : Option PyStr
deriving DecidableEq

/-- STEP 5: flatten one practitioner record (whose id is truthy) to a row. -/
def buildRow (pid : PyStr) (rec : PractRecord) : Row :=
  let ne := rec.name.headD emptyHumanName
  let assembled := stripStr (spaceJoin (([spaceJoin ne.prefixes,
      spaceJoin ne.given, ne.family.getD []]).filter (fun s => !s.isEmpty)))
  { provider_id := pid
    npi := (rec.identifier.find? (fun i =>
        endsWithStr "npi".data (lowerStr (i.system.getD [])))).map Identifier.value
    name := if assembled.isEmpty then "Unknown Provider".data else assembled
    phone := (scanTelecom rec.telecom).1
    email := (scanTelecom rec.telecom).2
    address := formatAddress (rec.address.headD emptyAddress)
    organization := rec.organization }

/-- Python dict assignment on an insertion-ordered association list: an
existing key is updated in place, a new key is appended. -/
def dictSet (d : List (PyStr × Row)) (k : PyStr) (v : Row) : List (PyStr × Row) :=
  if d.any (fun p => p.1 = k) then
    d.map (fun p => if p.1 = k then (k, v) else p)
  else d ++ [(k, v)]

/-- `dict.values()` in insertion order (what `write_batch` serializes). -/
def dictValues (d : List (PyStr × Row)) : List Row := d.map Prod.snd

/-- One STEP 5 iteration on the state (buffer dict, batches written so far);
`write_batch` appends the buffer values as the next numbered batch and the
buffer is cleared. -/
def extractStep (B : Nat) (st : List (PyStr × Row) × List (List Row))
    (rec : PractRecord) : List (PyStr × Row) × List (List Row) :=
  if truthy rec.id then
    let pid := rec.id.getD []
    let buf := dictSet st.1 pid (buildRow pid rec)
    if B ≤ buf.length then ([], st.2 ++ [dictValues buf])
    else (buf, st.2)
  else st

/-- The whole STEP 5 extraction: scan the stream, then flush the remaining
buffer if it is non-empty. -/
def extractRun (B : Nat) (recs : List PractRecord) :
    List (PyStr × Row) × List (List Row) :=
  let st := recs.foldl (extractStep B) ([], [])
  if st.1.isEmpty then st else ([], st.2 ++ [dictValues st.1])

/-- Specification-side description: the last telecom entry carrying the given
system label. -/
def lastWithSystem (sys : PyStr) (ts : List Telecom) : Option Telecom :=
  match ts with
  | [] => none
  | t :: rest =>
    match lastWithSystem sys rest with
    | some t' => some t'
    | none => if t.system = some sys then some t else none

/-! ### Buffer invariants, batch counting (C10, C6) -/

/-- The keys of the buffer dict, in insertion order. -/
def dictKeys (d : List (PyStr × Row)) : List PyStr := d.map Prod.fst

/-- Buffer invariant: keys are distinct and each row is stored under its own
provider id. -/
def BufInv (d : List (PyStr × Row)) : Prop :=
  (dictKeys d).Nodup ∧ ∀ p ∈ d, p.2.provider_id = p.1

/-- A batch holds at most one row per provider id. -/
def NodupIds (b : List Row) : Prop := (b.map Row.provider_id).Nodup

/-- Total number of rows across batches. -/
def totalRows (bs : List (List Row)) : Nat := (bs.map List.length).sum

/-- The spec's data-model precondition (§3: the provider identifier is a
unique key within the run): all ids truthy and pairwise distinct. -/
def ValidDistinct (recs : List PractRecord) : Prop :=
  (∀ r ∈ recs, truthy r.id = true) ∧ (recs.map (fun r => r.id.getD [])).Nodup

/-! ### STEP 6: encounter aggregation -/

/-- A date key for one parsed character digit. -/
def digitVal (c : Char) : Option Nat :=
  if c.isDigit then some (c.toNat - 48) else none

/-- Model of `dateutil.parser.parse` restricted to the ISO `YYYY-MM-DD` date
strings this data carries, returning a key that is monotone in calendar
order; `none` models the `ParserError` raised on an unparseable value. -/
def parseDate (s : PyStr) : Option Nat :=
  match s with
  | [y1, y2, y3, y4, h1, m1, m2, h2, d1, d2] =>
    if h1 = '-' ∧ h2 = '-' then
      match digitVal y1, digitVal y2, digitVal y3, digitVal y4,
          digitVal m1, digitVal m2, digitVal d1, digitVal d2 with
      | some a, some b, some c, some d, some e, some f, some g, some h =>
        let year := ((a * 10 + b) * 10 + c) * 10 + d
        let month := e * 10 + f
        let day := g * 10 + h
        if 1 ≤ month ∧ month ≤ 12 ∧ 1 ≤ day ∧ day ≤ 31 then
          some ((year * 100 + month) * 100 + day)
        else none
      | _, _, _, _, _, _, _, _ => none
    else none
  | _ => none

/-- One entry of an encounter's location list
(`loc.get("location", {}).get("reference")`, flattened). -/
structure EncLocation where
  reference : Option PyStr
deriving DecidableEq

/-- One participant (`participant.get("individual", {}).get("reference", "")`,
flattened; the `""` default is applied at use). -/
structure Participant where
  reference : Option PyStr
deriving DecidableEq

/-- An encounter record: the fields STEP 6 reads (`period` flattened;
`end_` embeds the source field `end`, a Lean keyword). -/
structure Encounter where
  start : Option PyStr
  end_ : Option PyStr
  location : List EncLocation
  participant : List Participant
deriving DecidableEq

/-- Python `str.split(sep)` (the result is always non-empty). -/
def pySplit (sep : Char) : PyStr → List PyStr
  | [] => [[]]
  | c :: cs =>
    if c = sep then [] :: pySplit sep cs
    else
      match pySplit sep cs with
      | [] => [[c]]
      | p :: ps => (c :: p) :: ps

/-- The practitioner id the participant loop extracts:
`actor_ref.split("/")[-1]` behind the `startswith("Practitioner/")` guard;
`none` when the participant is skipped (non-matching or empty id). -/
def extractPid (p : Participant) : Option PyStr :=
  let actor := p.reference.getD []
  if "Practitioner/".data.isPrefixOf actor then
    let pid := (pySplit '/' actor).getLastD []
    if pid.isEmpty then none else some pid
  else none

/-- A `(timestamp, location reference)` activity candidate. -/
abbrev Cand := PyStr × Option PyStr

/-- Per-provider activity state. -/
structure ActivityState where
  first : Option Cand
  last : Option Cand
deriving DecidableEq

/-- The activity map, used only via membership test, indexing and
assignment — modelled as its lookup function. -/
abbrev ActMap := PyStr → Option ActivityState

def emptyActMap : ActMap := fun _ => none

/-- `activity_map[k] = v`. -/
def actSet (m : ActMap) (k : PyStr) (v : ActivityState) : ActMap :=
  fun q => if q = k then some v else m q

/-- `location_refs[0] if location_refs else None`: first truthy location
reference, normalized. -/
def encLocRef (rec : Encounter) : Option PyStr :=
  ((rec.location.filter (fun l => truthy l.reference)).map
    (fun l => normalize_location_key l.reference)).headD none

/-- The `first` update for a present pid: mirrors the
`if start and ...: if dt_parse(start) < dt_parse(...)` branches;
`Except.error ()` models the uncaught exception from `dt_parse`. -/
def updFirst (cur : Option Cand) (start locRef : Option PyStr) :
    Except Unit (Option Cand) :=
  if truthy start then
    match cur with
    | some (ts, l) =>
      match parseDate (start.getD []), parseDate ts with
      | some a, some b =>
        if a < b then Except.ok (some (start.getD [], locRef))
        else Except.ok (some (ts, l))
      | _, _ => Except.error ()
    | none => Except.ok (some (start.getD [], locRef))
  else Except.ok cur

/-- The `last` update for a present pid (`dt_parse(end) > dt_parse(...)`). -/
def updLast (cur : Option Cand) (end_ locRef : Option PyStr) :
    Except Unit (Option Cand) :=
  if truthy end_ then
    match cur with
    | some (ts, l) =>
      match parseDate (end_.getD []), parseDate ts with
      | some a, some b =>
        if b < a then Except.ok (some (end_.getD [], locRef))
        else Except.ok (some (ts, l))
      | _, _ => Except.error ()
    | none => Except.ok (some (end_.getD [], locRef))
  else Except.ok cur

/-- Both sequential updates of an existing entry. -/
def updateEntry (st : ActivityState) (start end_ locRef : Option PyStr) :
    Except Unit ActivityState :=
  match updFirst st.first start locRef with
  | Except.error e => Except.error e
  | Except.ok f =>
    match updLast st.last end_ locRef with
    | Except.error e => Except.error e
    | Except.ok l => Except.ok ⟨f, l⟩

/-- The body of the STEP 6 participant loop. -/
def participantStep (start end_ locRef : Option PyStr) (m : ActMap)
    (p : Participant) : Except Unit ActMap :=
  match extractPid p with
  | none => Except.ok m
  | some pid =>
    match m pid with
    | none =>
      Except.ok (actSet m pid
        ⟨if truthy start then some (start.getD [], locRef) else none,
         if truthy end_ then some (end_.getD [], locRef) else none⟩)
    | some st => (updateEntry st start end_ locRef).map (actSet m pid)

/-- STEP 6, one encounter record: skip when both period timestamps are
falsy, else run the participant loop. -/
def processEncounterRecord (m : ActMap) (rec : Encounter) : Except Unit ActMap :=
  if truthy rec.start = false ∧ truthy rec.end_ = false then Except.ok m
  else rec.participant.foldlM (participantStep rec.start rec.end_ (encLocRef rec)) m

/-- STEP 6: the whole aggregation over the encounter stream. -/
def buildActivityMap (recs : List Encounter) : Except Unit ActMap :=
  recs.foldlM processEncounterRecord emptyActMap

/-- The `first` component a provider's entry exposes (absent when the pid is
unknown or its first is `None`). -/
def entryFirst (m : ActMap) (pid : PyStr) : Option Cand :=
  (m pid).bind ActivityState.first

/-- The `last` component a provider's entry exposes. -/
def entryLast (m : ActMap) (pid : PyStr) : Option Cand :=
  (m pid).bind ActivityState.last

/-- Does the record list this provider as a Practitioner participant? -/
def participates (rec : Encounter) (pid : PyStr) : Bool :=
  rec.participant.any (fun p => extractPid p = some pid)

/-- The start candidates one provider accumulates over a stream. -/
def startCands (recs : List Encounter) (pid : PyStr) : List Cand :=
  recs.filterMap (fun r =>
    if participates r pid ∧ truthy r.start then
      some (r.start.getD [], encLocRef r)
    else none)

/-- The end candidates one provider accumulates over a stream. -/
def endCands (recs : List Encounter) (pid : PyStr) : List Cand :=
  recs.filterMap (fun r =>
    if participates r pid ∧ truthy r.end_ then
      some (r.end_.getD [], encLocRef r)
    else none)

/-- Keep the earlier candidate (strict comparison: first occurrence wins
ties), on parsed timestamps. -/
def minStepStart (a : Option Cand) (c : Cand) : Option Cand :=
  match a with
  | none => some c
  | some a => if (parseDate c.1).getD 0 < (parseDate a.1).getD 0 then some c else some a

/-- Keep the later candidate (strict comparison: first occurrence wins
ties), on parsed timestamps. -/
def maxStepEnd (a : Option Cand) (c : Cand) : Option Cand :=
  match a with
  | none => some c
  | some a => if (parseDate a.1).getD 0 < (parseDate c.1).getD 0 then some c else some a

/-- Specification-side: the earliest start candidate of the stream. -/
def specEarliestStart (recs : List Encounter) (pid : PyStr) : Option Cand :=
  (startCands recs pid).foldl minStepStart none

/-- Specification-side: the latest end candidate of the stream. -/
def specLatestEnd (recs : List Encounter) (pid : PyStr) : Option Cand :=
  (endCands recs pid).foldl maxStepEnd none

/-- Every present period timestamp of the record parses. -/
def recParseOK (rec : Encounter) : Prop :=
  (truthy rec.start = true → (parseDate (rec.start.getD [])).isSome = true) ∧
  (truthy rec.end_ = true → (parseDate (rec.end_.getD [])).isSome = true)

/-- Every present period timestamp of the stream parses. -/
def AllParseable (recs : List Encounter) : Prop := ∀ r ∈ recs, recParseOK r

/-- Every stored `first`/`last` timestamp of the map parses. -/
def StoredOK (m : ActMap) : Prop :=
  ∀ pid, (∀ c, entryFirst m pid = some c → (parseDate c.1).isSome = true) ∧
    (∀ c, entryLast m pid = some c → (parseDate c.1).isSome = true)

/-- `first` may only stay, be set from absent, or move strictly earlier. -/
def FirstEvolves (old new : Option Cand) : Prop :=
  new = old ∨ old = none ∨
    (∃ c c', old = some c ∧ new = some c' ∧
      ∃ v v', parseDate c.1 = some v ∧ parseDate c'.1 = some v' ∧ v' < v)

/-- `last` may only stay, be set from absent, or move strictly later. -/
def LastEvolves (old new : Option Cand) : Prop :=
  new = old ∨ old = none ∨
    (∃ c c', old = some c ∧ new = some c' ∧
      ∃ v v', parseDate c.1 = some v ∧ parseDate c'.1 = some v' ∧ v < v')

/-- Two demonstration encounters for provider `p`, with starts
2020-01-01 / 2019-06-15 and ends 2020-01-01 / 2021-05-01. -/
def demoEncounters : List Encounter :=
  [⟨some "2020-01-01".data, some "2020-01-01".data, [],
    [⟨some "Practitioner/p".data⟩]⟩,
   ⟨some "2019-06-15".data, some "2021-05-01".data, [],
    [⟨some "Practitioner/p".data⟩]⟩]

instance (rec : Encounter) : Decidable (recParseOK rec) := by
  unfold recParseOK
  infer_instance

instance (recs : List Encounter) : Decidable (AllParseable recs) := by
  unfold AllParseable
  exact List.decidableBAll _ recs

/-! ### STEP 7: merge and enrichment -/

/-- A provider row with the six activity columns the merge stage computes. -/
structure EnrichedRow where
  base : Row
  first_activity_date : Option PyStr
  first_activity_location : Option PyStr
  first_activity_address : Option PyStr
  last_activity_date : Option PyStr
  last_activity_location : Option PyStr
  last_activity_address : Option PyStr
deriving DecidableEq

/-- `activity_map.get(pid, {}).get("first", (None, None))` followed by the
`[0]`/`[1]` subscripts: when the pid is present with `first = None` the key
exists, the default does not apply, and `None[0]` raises `TypeError`
(modelled as `Except.error ()`); an absent pid yields the
`(None, None)` default. -/
def firstFields (am : ActMap) (pid : PyStr) :
    Except Unit (Option PyStr × Option PyStr) :=
  match am pid with
  | none => Except.ok (none, none)
  | some st =>
    match st.first with
    | none => Except.error ()
    | some (ts, loc) => Except.ok (some ts, loc)

/-- The `last` counterpart of `firstFields`. -/
def lastFields (am : ActMap) (pid : PyStr) :
    Except Unit (Option PyStr × Option PyStr) :=
  match am pid with
  | none => Except.ok (none, none)
  | some st =>
    match st.last with
    | none => Except.error ()
    | some (ts, loc) => Except.ok (some ts, loc)

/-- STEP 7 per-row enrichment: activity dates/references from the activity
map, addresses via `location_lookup.get(loc)` (an absent reference looks up
the absent key). -/
def enrichRow (am : ActMap) (lookup : Option PyStr → Option PyStr)
    (row : Row) : Except Unit EnrichedRow :=
  match firstFields am row.provider_id with
  | Except.error e => Except.error e
  | Except.ok f =>
    match lastFields am row.provider_id with
    | Except.error e => Except.error e
    | Except.ok l =>
      Except.ok ⟨row, f.1, f.2, lookup f.2, l.1, l.2, lookup l.2⟩

/-- pandas `drop_duplicates(subset="provider_id")` with the default
`keep='first'`: keep the first occurrence of each provider id. -/
def dropDupFirst : List EnrichedRow → List PyStr → List EnrichedRow
  | [], _ => []
  | r :: rs, seen =>
    if r.base.provider_id ∈ seen then dropDupFirst rs seen
    else r :: dropDupFirst rs (r.base.provider_id :: seen)

/-- The STEP 7 deduplication over one batch. -/
def dropDuplicatesByProviderId (rows : List EnrichedRow) : List EnrichedRow :=
  dropDupFirst rows []

/-- STEP 7, one batch: the vectorized column assignments followed by the
dedup. -/
def enrichBatch (am : ActMap) (lookup : Option PyStr → Option PyStr)
    (rows : List Row) : Except Unit (List EnrichedRow) :=
  match rows.mapM (enrichRow am lookup) with
  | Except.error e => Except.error e
  | Except.ok ers => Except.ok (dropDuplicatesByProviderId ers)

/-- One merge iteration: enrich a batch and append it to the output. -/
def mergeStep (am : ActMap) (lookup : Option PyStr → Option PyStr)
    (acc : List EnrichedRow) (b : List Row) : Except Unit (List EnrichedRow) :=
  match enrichBatch am lookup b with
  | Except.error e => Except.error e
  | Except.ok ers => Except.ok (acc ++ ers)

/-- STEP 7: merge all batches in ascending sequence order. -/
def mergeRun (batches : List (List Row)) (am : ActMap)
    (lookup : Option PyStr → Option PyStr) : Except Unit (List EnrichedRow) :=
  batches.foldlM (mergeStep am lookup) []

instance (recs : List PractRecord) : Decidable (ValidDistinct recs) := by
  unfold ValidDistinct
  infer_instance

/-- Three demonstration provider records with distinct truthy ids. -/
def demoPracts : List PractRecord :=
  [⟨some "p1".data, [], [], [], none, []⟩,
   ⟨some "p2".data, [], [], [], none, []⟩,
   ⟨some "p3".data, [], [], [], none, []⟩]

/-! ### The whole pipeline and the run guard (C7) -/

/-- The failure conditions the pipeline can end in. -/
inductive PipelineError
  | fatalPrecondition
  | valueError
  | typeError
deriving DecidableEq

/-- STEPs 2-7: build the location lookup, extract and batch the providers,
aggregate the encounters, then merge. -/
def pipelineStages (locs : List LocationRecord) (practs : List PractRecord)
    (encs : List Encounter) (B : Nat) : Except PipelineError (List EnrichedRow) :=
  let lookup := buildLocationLookup locs
  let ex := extractRun B practs
  match buildActivityMap encs with
  | Except.error _ => Except.error PipelineError.valueError
  | Except.ok am =>
    match mergeRun ex.2 am lookup with
    | Except.error _ => Except.error PipelineError.typeError
    | Except.ok out => Except.ok out

/-- The whole run: STEP 1.5's guard fires on the count of pre-existing
checkpoint batch files before any source stream is touched. -/
def runPipeline (existing : Nat) (locs : List LocationRecord)
    (practs : List PractRecord) (encs : List Encounter) (B : Nat) :
    Except PipelineError (List EnrichedRow) :=
  if existing ≠ 0 then Except.error PipelineError.fatalPrecondition
  else pipelineStages locs practs encs B

/-! ### Theorems -/

/-! ### Lemmas about the string model -/

theorem pyLowerChar_idem (c : Char) : pyLowerChar (pyLowerChar c) = pyLowerChar c := by
  have haux : ∀ q ∈ upperLowerPairs,
      upperLowerPairs.find? (fun p => p.1 = q.2) = none := by decide
  unfold pyLowerChar
  cases hf : upperLowerPairs.find? (fun p => p.1 = c) with
  | none => simp [hf]
  | some q =>
    have hmem : q ∈ upperLowerPairs := List.mem_of_find?_eq_some hf
    simp [haux q hmem]

theorem pyLowerChar_space (c : Char) : isPySpace (pyLowerChar c) = isPySpace c := by
  have haux : ∀ q ∈ upperLowerPairs, isPySpace q.1 = false ∧ isPySpace q.2 = false := by
    decide
  unfold pyLowerChar
  cases hf : upperLowerPairs.find? (fun p => p.1 = c) with
  | none => simp [hf]
  | some q =>
    have hmem : q ∈ upperLowerPairs := List.mem_of_find?_eq_some hf
    have hc : q.1 = c := by
      have := List.find?_some hf
      simpa using this
    show isPySpace q.2 = isPySpace c
    rw [(haux q hmem).2, ← hc, (haux q hmem).1]

theorem lowerStr_idem (s : PyStr) : lowerStr (lowerStr s) = lowerStr s := by
  unfold lowerStr
  rw [List.map_map]
  exact List.map_congr_left (fun a _ => pyLowerChar_idem a)

theorem dropWhile_head_false {p : Char → Bool} :
    ∀ (l : PyStr) (c : Char) (cs : PyStr), l.dropWhile p = c :: cs → p c = false := by
  intro l
  induction l with
  | nil => intro c cs h; simp [List.dropWhile] at h
  | cons x xs ih =>
    intro c cs h
    rw [List.dropWhile_cons] at h
    by_cases hx : p x
    · rw [if_pos hx] at h; exact ih c cs h
    · rw [if_neg hx] at h
      cases h
      simpa using hx

theorem stripStr_eq_self {t : PyStr} (h1 : t.dropWhile isPySpace = t)
    (h2 : t.reverse.dropWhile isPySpace = t.reverse) : stripStr t = t := by
  unfold stripStr
  rw [h1, h2, List.reverse_reverse]

theorem dropWhile_cons_not (p : Char → Bool) (c : Char) (cs : PyStr) (h : p c = false) :
    (c :: cs).dropWhile p = c :: cs := by
  rw [List.dropWhile_cons, if_neg (by simp [h])]

theorem dropWhile_fixed_head {p : Char → Bool} {d : Char} {ds : PyStr}
    (h : (d :: ds).dropWhile p = d :: ds) : p d = false :=
  dropWhile_head_false _ _ _ h

theorem dropWhile_dropWhile (p : Char → Bool) (l : PyStr) :
    (l.dropWhile p).dropWhile p = l.dropWhile p := by
  cases hl : l.dropWhile p with
  | nil => rfl
  | cons c cs => exact dropWhile_cons_not p c cs (dropWhile_head_false l c cs hl)

theorem stripStr_back (r : PyStr) :
    (stripStr r).reverse.dropWhile isPySpace = (stripStr r).reverse := by
  have h : (stripStr r).reverse = ((r.dropWhile isPySpace).reverse).dropWhile isPySpace := by
    unfold stripStr
    rw [List.reverse_reverse]
  rw [h]
  exact dropWhile_dropWhile _ _

theorem stripStr_front (r : PyStr) :
    (stripStr r).dropWhile isPySpace = stripStr r := by
  have hpre : stripStr r <+: r.dropWhile isPySpace := by
    have hsuf : ((r.dropWhile isPySpace).reverse).dropWhile isPySpace <:+
        (r.dropWhile isPySpace).reverse := List.dropWhile_suffix _
    have h : (stripStr r).reverse <:+ (r.dropWhile isPySpace).reverse := by
      have heq : (stripStr r).reverse =
          ((r.dropWhile isPySpace).reverse).dropWhile isPySpace := by
        unfold stripStr
        rw [List.reverse_reverse]
      rw [heq]
      exact hsuf
    exact (List.reverse_suffix).1 h
  cases hs : stripStr r with
  | nil => rfl
  | cons d ds =>
    obtain ⟨w, hw⟩ := hpre
    rw [hs] at hw
    have hd : isPySpace d = false := by
      apply dropWhile_head_false r d (ds ++ w)
      rw [← hw]
      rfl
    exact dropWhile_cons_not _ d ds hd

theorem lowerStr_dropWhile_fixed {l : PyStr} (h : l.dropWhile isPySpace = l) :
    (lowerStr l).dropWhile isPySpace = lowerStr l := by
  cases l with
  | nil => rfl
  | cons d ds =>
    have hd : isPySpace d = false := dropWhile_fixed_head h
    show (pyLowerChar d :: ds.map pyLowerChar).dropWhile isPySpace =
      pyLowerChar d :: ds.map pyLowerChar
    exact dropWhile_cons_not _ _ _ (by rw [pyLowerChar_space]; exact hd)

theorem lowerStr_reverse (l : PyStr) : (lowerStr l).reverse = lowerStr l.reverse := by
  simp [lowerStr]

/-- Stripping after lowercasing a stripped string is the identity. -/
theorem strip_lower_strip (r : PyStr) :
    stripStr (lowerStr (stripStr r)) = lowerStr (stripStr r) := by
  apply stripStr_eq_self
  · exact lowerStr_dropWhile_fixed (stripStr_front r)
  · rw [lowerStr_reverse]
    exact lowerStr_dropWhile_fixed (stripStr_back r)

theorem normalizeKey_idem (x : Option PyStr) :
    normalize_location_key (normalize_location_key x) = normalize_location_key x := by
  match x with
  | none => rfl
  | some r =>
    by_cases hr : r.isEmpty
    · have h : normalize_location_key (some r) = none := by
        simp [normalize_location_key, hr]
      rw [h]
      rfl
    · have hr' : r.isEmpty = false := by simpa using hr
      obtain ⟨s, hs⟩ : ∃ s, lowerStr (stripStr r) = s := ⟨_, rfl⟩
      have hlow : lowerStr s = s := by rw [← hs]; exact lowerStr_idem _
      have hstrip : stripStr s = s := by rw [← hs]; exact strip_lower_strip r
      have hss : lowerStr (stripStr s) = s := by rw [hstrip, hlow]
      have hsback : s.reverse.dropWhile isPySpace = s.reverse := by
        rw [← hs, lowerStr_reverse]
        exact lowerStr_dropWhile_fixed (stripStr_back r)
      by_cases hp : "location/".data.isPrefixOf s
      · have h1 : normalize_location_key (some r) = some s := by
          simp [normalize_location_key, hr', hs, hp]
        rw [h1]
        obtain ⟨u, hu⟩ := (List.isPrefixOf_iff_prefix).1 hp
        have hne : s.isEmpty = false := by rw [← hu]; rfl
        simp [normalize_location_key, hne, hss, hp]
      · have h1 : normalize_location_key (some r) =
            some ("location/".data ++ s) := by
          simp [normalize_location_key, hr', hs, hp]
        rw [h1]
        have ht : "location/".data ++ s = 'l' :: ("ocation/".data ++ s) := rfl
        have hne : ("location/".data ++ s).isEmpty = false := by rw [ht]; rfl
        have hlowt : lowerStr ("location/".data ++ s) = "location/".data ++ s := by
          unfold lowerStr
          rw [List.map_append]
          have h2 : "location/".data.map pyLowerChar = "location/".data := by decide
          rw [h2]
          rw [show s.map pyLowerChar = lowerStr s from rfl, hlow]
        have hfront : ("location/".data ++ s).dropWhile isPySpace =
            "location/".data ++ s := by
          rw [ht]
          exact dropWhile_cons_not _ _ _ (by decide)
        have hback : ("location/".data ++ s).reverse.dropWhile isPySpace =
            ("location/".data ++ s).reverse := by
          rw [List.reverse_append]
          cases hsr : s.reverse with
          | nil =>
            simp only [List.nil_append]
            decide
          | cons d ds =>
            rw [hsr] at hsback
            have hd : isPySpace d = false := dropWhile_fixed_head hsback
            show (d :: (ds ++ "location/".data.reverse)).dropWhile isPySpace = _
            rw [dropWhile_cons_not _ _ _ hd]
            rfl
        have hstript : stripStr ("location/".data ++ s) = "location/".data ++ s :=
          stripStr_eq_self hfront hback
        have hpt : "location/".data.isPrefixOf ("location/".data ++ s) = true := by
          simp
        simp only [normalize_location_key]
        rw [hstript, hlowt, hne, hpt]
        simp

/-- C8: the location-key normalization is idempotent, maps absent to absent,
prefixes bare ids with the namespace tag, and lowercases already-tagged ids. -/
theorem C8_normalize_idempotent :
    (∀ x, normalize_location_key (normalize_location_key x) = normalize_location_key x) ∧
    normalize_location_key none = none ∧
    normalize_location_key (some "ABC".data) = some "location/abc".data ∧
    normalize_location_key (some "location/XYZ".data) = some "location/xyz".data := by
  refine ⟨normalizeKey_idem, rfl, ?_, ?_⟩
  · decide
  · decide

theorem lastMatch_cons (r : LocationRecord) (rest : List LocationRecord) (k : Option PyStr) :
    lastMatch (r :: rest) k =
      (match lastMatch rest k with
       | some r' => some r'
       | none => if normalize_location_key r.id = k then some r else none) := rfl

theorem buildLocationLookup_loop (recs : List LocationRecord) :
    ∀ (m : Option PyStr → Option PyStr) (k : Option PyStr),
      recs.foldl locationStep m k =
        (match lastMatch recs k with
         | some r => some (locationValue r)
         | none => m k) := by
  induction recs with
  | nil => intro m k; rfl
  | cons r rest ih =>
    intro m k
    show rest.foldl locationStep (locationStep m r) k = _
    rw [ih (locationStep m r) k, lastMatch_cons]
    cases lastMatch rest k with
    | some r' => rfl
    | none =>
      show lookupInsert m (normalize_location_key r.id) (locationValue r) k = _
      by_cases hk : normalize_location_key r.id = k
      · subst hk
        simp [lookupInsert]
      · have hk' : ¬(k = normalize_location_key r.id) := fun h => hk h.symm
        simp [lookupInsert, hk, hk']

/-- C3 counterexample: a location record with an absent id is *not* skipped —
it is inserted under the absent (`None`) key. -/
theorem C3_counterexample :
    buildLocationLookup
        [⟨none, none, some ⟨["123 Main St".data], some "Springfield".data,
          none, none, none⟩⟩] none =
      some "123 Main St, Springfield".data ∧
    buildLocationLookup
        [⟨none, none, some ⟨["123 Main St".data], some "Springfield".data,
          none, none, none⟩⟩] none ≠ none := by
  refine ⟨by decide, by decide⟩

/-- C3 (amended): no record is skipped; every record — including those with an
empty or absent id, whose normalized key is the absent key — is inserted under
`normalize(id)` with the formatted address value, and later records with the
same key overwrite earlier ones: the lookup at any key is the value of the
last record whose normalized id equals that key. -/
theorem C3_location_lookup (recs : List LocationRecord) (k : Option PyStr) :
    buildLocationLookup recs k =
      (match lastMatch recs k with
       | some r => some (locationValue r)
       | none => none) :=
  buildLocationLookup_loop recs emptyLookup k

theorem lastWithSystem_cons (sys : PyStr) (t : Telecom) (rest : List Telecom) :
    lastWithSystem sys (t :: rest) =
      (match lastWithSystem sys rest with
       | some t' => some t'
       | none => if t.system = some sys then some t else none) := rfl

theorem scanTelecom_loop (ts : List Telecom) :
    ∀ pe : Option PyStr × Option PyStr,
      ts.foldl scanStep pe =
        ((match lastWithSystem "phone".data ts with
          | some t => t.value
          | none => pe.1),
         (match lastWithSystem "email".data ts with
          | some t => t.value
          | none => pe.2)) := by
  induction ts with
  | nil => intro pe; rfl
  | cons t rest ih =>
    intro pe
    show rest.foldl scanStep (scanStep pe t) = _
    rw [ih (scanStep pe t), lastWithSystem_cons, lastWithSystem_cons]
    by_cases hp : t.system = some "phone".data
    · have he : ¬(t.system = some "email".data) := by rw [hp]; decide
      cases lastWithSystem "phone".data rest <;>
        cases lastWithSystem "email".data rest <;> simp [scanStep, hp, he]
    · by_cases he : t.system = some "email".data
      · cases lastWithSystem "phone".data rest <;>
          cases lastWithSystem "email".data rest <;> simp [scanStep, hp, he]
      · cases lastWithSystem "phone".data rest <;>
          cases lastWithSystem "email".data rest <;> simp [scanStep, hp, he]

/-- C9: the extracted phone (resp. email) is the value of the *last* telecom
entry whose system is "phone" (resp. "email") — later matches overwrite — and
in particular two phone entries yield the second one's value in the row. -/
theorem C9_telecom_last_wins :
    (∀ (rec : PractRecord) (pid : PyStr),
      (buildRow pid rec).phone =
        (match lastWithSystem "phone".data rec.telecom with
         | some t => t.value
         | none => none) ∧
      (buildRow pid rec).email =
        (match lastWithSystem "email".data rec.telecom with
         | some t => t.value
         | none => none)) ∧
    (buildRow "p1".data
        ⟨some "p1".data, [], [⟨some "phone".data, some "555-0001".data⟩,
          ⟨some "phone".data, some "555-0002".data⟩], [], none, []⟩).phone =
      some "555-0002".data := by
  constructor
  · intro rec pid
    constructor
    · show (scanTelecom rec.telecom).1 = _
      rw [scanTelecom, scanTelecom_loop rec.telecom (none, none)]
    · show (scanTelecom rec.telecom).2 = _
      rw [scanTelecom, scanTelecom_loop rec.telecom (none, none)]
  · decide

theorem dictKeys_dictSet_mem (d : List (PyStr × Row)) (k : PyStr) (v : Row)
    (h : d.any (fun p => p.1 = k) = true) :
    dictKeys (dictSet d k v) = dictKeys d := by
  unfold dictSet
  rw [if_pos h]
  unfold dictKeys
  rw [List.map_map]
  apply List.map_congr_left
  intro p _
  show (if p.1 = k then (k, v) else p).1 = p.1
  by_cases hp : p.1 = k
  · rw [if_pos hp]; exact hp.symm
  · rw [if_neg hp]

theorem dictKeys_dictSet_new (d : List (PyStr × Row)) (k : PyStr) (v : Row)
    (h : d.any (fun p => p.1 = k) = false) :
    dictKeys (dictSet d k v) = dictKeys d ++ [k] := by
  unfold dictSet
  rw [if_neg (by rw [h]; exact Bool.false_ne_true)]
  unfold dictKeys
  rw [List.map_append]
  rfl

theorem not_any_of_not_mem_keys (d : List (PyStr × Row)) (k : PyStr)
    (h : k ∉ dictKeys d) : d.any (fun p => p.1 = k) = false := by
  rw [List.any_eq_false]
  intro p hp
  simp only [decide_eq_true_eq]
  intro hk
  exact h (by rw [← hk]; exact List.mem_map_of_mem Prod.fst hp)

theorem bufInv_dictSet (d : List (PyStr × Row)) (k : PyStr) (v : Row)
    (hd : BufInv d) (hv : v.provider_id = k) : BufInv (dictSet d k v) := by
  obtain ⟨hnd, hids⟩ := hd
  by_cases h : d.any (fun p => p.1 = k) = true
  · constructor
    · rw [dictKeys_dictSet_mem d k v h]; exact hnd
    · intro p hp
      unfold dictSet at hp
      rw [if_pos h] at hp
      obtain ⟨q, hq, hqe⟩ := List.mem_map.1 hp
      by_cases hqk : q.1 = k
      · rw [if_pos hqk] at hqe
        rw [← hqe]
        exact hv
      · rw [if_neg hqk] at hqe
        rw [← hqe]
        exact hids q hq
  · have h' : d.any (fun p => p.1 = k) = false := by
      cases hx : d.any (fun p => p.1 = k)
      · rfl
      · exact absurd hx h
    constructor
    · rw [dictKeys_dictSet_new d k v h']
      rw [List.nodup_append]
      refine ⟨hnd, List.nodup_singleton k, ?_⟩
      intro a ha hb
      have hak : a = k := by simp at hb; exact hb
      subst hak
      obtain ⟨q, hq, hqe⟩ := List.mem_map.1 ha
      have hfalse := List.any_eq_false.1 h' q hq
      simp only [decide_eq_true_eq] at hfalse
      exact hfalse hqe
    · intro p hp
      unfold dictSet at hp
      rw [if_neg (by rw [h']; exact Bool.false_ne_true)] at hp
      rcases List.mem_append.1 hp with hl | hr
      · exact hids p hl
      · have : p = (k, v) := by simpa using hr
        rw [this]
        exact hv

theorem nodupIds_dictValues (d : List (PyStr × Row)) (hd : BufInv d) :
    NodupIds (dictValues d) := by
  obtain ⟨hnd, hids⟩ := hd
  unfold NodupIds dictValues
  rw [List.map_map]
  have : d.map (Row.provider_id ∘ Prod.snd) = d.map Prod.fst := by
    apply List.map_congr_left
    intro p hp
    exact hids p hp
  rw [this]
  exact hnd

theorem extract_loop_nodup (B : Nat) :
    ∀ (recs : List PractRecord) (buf : List (PyStr × Row)) (bs : List (List Row)),
      BufInv buf → (∀ b ∈ bs, NodupIds b) →
      BufInv (recs.foldl (extractStep B) (buf, bs)).1 ∧
      ∀ b ∈ (recs.foldl (extractStep B) (buf, bs)).2, NodupIds b := by
  intro recs
  induction recs with
  | nil => intro buf bs h1 h2; exact ⟨h1, h2⟩
  | cons rec rest ih =>
    intro buf bs h1 h2
    rw [List.foldl_cons]
    by_cases hid : truthy rec.id = true
    · have hbuf' : BufInv (dictSet buf (rec.id.getD []) (buildRow (rec.id.getD []) rec)) :=
        bufInv_dictSet _ _ _ h1 rfl
      by_cases hflush :
          B ≤ (dictSet buf (rec.id.getD []) (buildRow (rec.id.getD []) rec)).length
      · have hstep : extractStep B (buf, bs) rec =
            ([], bs ++ [dictValues (dictSet buf (rec.id.getD [])
              (buildRow (rec.id.getD []) rec))]) := by
          unfold extractStep
          rw [if_pos hid, if_pos hflush]
        rw [hstep]
        apply ih
        · exact ⟨List.nodup_nil, by intro p hp; exact absurd hp (List.not_mem_nil p)⟩
        · intro b hb
          rcases List.mem_append.1 hb with hl | hr
          · exact h2 b hl
          · have : b = dictValues (dictSet buf (rec.id.getD [])
                (buildRow (rec.id.getD []) rec)) := by simpa using hr
            rw [this]
            exact nodupIds_dictValues _ hbuf'
      · have hstep : extractStep B (buf, bs) rec =
            (dictSet buf (rec.id.getD []) (buildRow (rec.id.getD []) rec), bs) := by
          unfold extractStep
          rw [if_pos hid, if_neg hflush]
        rw [hstep]
        exact ih _ _ hbuf' h2
    · have hstep : extractStep B (buf, bs) rec = (buf, bs) := by
        unfold extractStep
        rw [if_neg hid]
      rw [hstep]
      exact ih _ _ h1 h2

theorem extractRun_batches_nodup (B : Nat) (recs : List PractRecord) :
    ∀ b ∈ (extractRun B recs).2, NodupIds b := by
  have hloop := extract_loop_nodup B recs [] []
    ⟨List.nodup_nil, by intro p hp; exact absurd hp (List.not_mem_nil p)⟩
    (by intro b hb; exact absurd hb (List.not_mem_nil b))
  intro b hb
  unfold extractRun at hb
  by_cases hemp : (recs.foldl (extractStep B) ([], [])).1.isEmpty = true
  · rw [if_pos hemp] at hb
    exact hloop.2 b hb
  · rw [if_neg hemp] at hb
    rcases List.mem_append.1 hb with hl | hr
    · exact hloop.2 b hl
    · have : b = dictValues (recs.foldl (extractStep B) ([], [])).1 := by simpa using hr
      rw [this]
      exact nodupIds_dictValues _ hloop.1

/-- C10: every checkpoint batch written during a run has at most one row per
provider id (the buffer is a dict keyed by provider id, so same-buffer
duplicates collapse before writing, and it is cleared after every flush). -/
theorem C10_batches_one_row_per_id (B : Nat) (recs : List PractRecord) :
    ∀ b ∈ (extractRun B recs).2, NodupIds b :=
  extractRun_batches_nodup B recs

/-- Witness for C10 at a concrete input. -/
theorem C10_batches_one_row_per_id_witness :
    ([buildRow "p".data ⟨some "p".data, [], [], [], none, []⟩] ∈
      (extractRun 2 [⟨some "p".data, [], [], [], none, []⟩]).2) ∧
    NodupIds [buildRow "p".data ⟨some "p".data, [], [], [], none, []⟩] :=
  ⟨by decide, C10_batches_one_row_per_id 2 [⟨some "p".data, [], [], [], none, []⟩]
    [buildRow "p".data ⟨some "p".data, [], [], [], none, []⟩] (by decide)⟩

theorem dictValues_length (d : List (PyStr × Row)) :
    (dictValues d).length = d.length := by
  unfold dictValues
  exact List.length_map d Prod.snd

theorem totalRows_append1 (bs : List (List Row)) (b : List Row) :
    totalRows (bs ++ [b]) = totalRows bs + b.length := by
  unfold totalRows
  rw [List.map_append, List.sum_append]
  simp

theorem dictSet_length_new (d : List (PyStr × Row)) (k : PyStr) (v : Row)
    (h : d.any (fun p => p.1 = k) = false) :
    (dictSet d k v).length = d.length + 1 := by
  unfold dictSet
  rw [if_neg (by rw [h]; exact Bool.false_ne_true)]
  simp

theorem extract_loop_count :
    ∀ (recs : List PractRecord) (buf : List (PyStr × Row)) (bs : List (List Row)),
      buf.length < 2 →
      (∀ r ∈ recs, truthy r.id = true) →
      (recs.map (fun r => r.id.getD [])).Nodup →
      (∀ r ∈ recs, r.id.getD [] ∉ dictKeys buf) →
      ((recs.foldl (extractStep 2) (buf, bs)).1.length =
          (buf.length + recs.length) % 2 ∧
       (recs.foldl (extractStep 2) (buf, bs)).2.length =
          bs.length + (buf.length + recs.length) / 2 ∧
       totalRows (recs.foldl (extractStep 2) (buf, bs)).2 +
          (recs.foldl (extractStep 2) (buf, bs)).1.length =
          totalRows bs + buf.length + recs.length) := by
  intro recs
  induction recs with
  | nil =>
    intro buf bs hlen _ _ _
    simp only [List.foldl_nil, List.length_nil]
    refine ⟨by omega, by omega, by omega⟩
  | cons rec rest ih =>
    intro buf bs hlen htr hnd hfr
    rw [List.foldl_cons]
    have hid : truthy rec.id = true := htr rec (List.mem_cons_self rec rest)
    have hfr0 : rec.id.getD [] ∉ dictKeys buf := hfr rec (List.mem_cons_self rec rest)
    have hany : buf.any (fun p => p.1 = rec.id.getD []) = false :=
      not_any_of_not_mem_keys buf _ hfr0
    have hlen' : (dictSet buf (rec.id.getD [])
        (buildRow (rec.id.getD []) rec)).length = buf.length + 1 :=
      dictSet_length_new buf _ _ hany
    rw [List.map_cons] at hnd
    have hcons := List.nodup_cons.1 hnd
    have htr' : ∀ r ∈ rest, truthy r.id = true :=
      fun r hr => htr r (List.mem_cons_of_mem rec hr)
    by_cases hflush : 2 ≤ (dictSet buf (rec.id.getD [])
        (buildRow (rec.id.getD []) rec)).length
    · have hstep : extractStep 2 (buf, bs) rec =
          ([], bs ++ [dictValues (dictSet buf (rec.id.getD [])
            (buildRow (rec.id.getD []) rec))]) := by
        unfold extractStep
        rw [if_pos hid, if_pos hflush]
      rw [hstep]
      obtain ⟨ih1, ih2, ih3⟩ := ih []
        (bs ++ [dictValues (dictSet buf (rec.id.getD [])
          (buildRow (rec.id.getD []) rec))])
        (by simp) htr' hcons.2
        (by intro r _ h; simp [dictKeys] at h)
      have hb : (bs ++ [dictValues (dictSet buf (rec.id.getD [])
          (buildRow (rec.id.getD []) rec))]).length = bs.length + 1 := by simp
      have htot : totalRows (bs ++ [dictValues (dictSet buf (rec.id.getD [])
          (buildRow (rec.id.getD []) rec))]) = totalRows bs + (buf.length + 1) := by
        rw [totalRows_append1, dictValues_length, hlen']
      simp only [List.length_cons, List.length_nil] at ih1 ih2 ih3 hb htot ⊢
      omega
    · have hstep : extractStep 2 (buf, bs) rec =
          (dictSet buf (rec.id.getD []) (buildRow (rec.id.getD []) rec), bs) := by
        unfold extractStep
        rw [if_pos hid, if_neg hflush]
      rw [hstep]
      have hfr2 : ∀ r ∈ rest, r.id.getD [] ∉
          dictKeys (dictSet buf (rec.id.getD []) (buildRow (rec.id.getD []) rec)) := by
        intro r hr
        rw [dictKeys_dictSet_new buf _ _ hany]
        intro hmem
        rcases List.mem_append.1 hmem with hl | hrr
        · exact hfr r (List.mem_cons_of_mem rec hr) hl
        · have heq : r.id.getD [] = rec.id.getD [] := by simpa using hrr
          exact hcons.1 (by
            rw [← heq]
            exact List.mem_map_of_mem (fun r => r.id.getD []) hr)
      obtain ⟨ih1, ih2, ih3⟩ := ih
        (dictSet buf (rec.id.getD []) (buildRow (rec.id.getD []) rec)) bs
        (by omega) htr' hcons.2 hfr2
      simp only [List.length_cons, List.length_nil] at ih1 ih2 ih3 ⊢
      omega

theorem extract_loop_size (B : Nat) (hB : 0 < B) :
    ∀ (recs : List PractRecord) (buf : List (PyStr × Row)) (bs : List (List Row)),
      buf.length < B → (∀ b ∈ bs, b.length ≤ B) →
      ((recs.foldl (extractStep B) (buf, bs)).1.length < B ∧
       ∀ b ∈ (recs.foldl (extractStep B) (buf, bs)).2, b.length ≤ B) := by
  intro recs
  induction recs with
  | nil => intro buf bs h1 h2; exact ⟨h1, h2⟩
  | cons rec rest ih =>
    intro buf bs h1 h2
    rw [List.foldl_cons]
    by_cases hid : truthy rec.id = true
    · have hle : (dictSet buf (rec.id.getD [])
          (buildRow (rec.id.getD []) rec)).length ≤ buf.length + 1 := by
        unfold dictSet
        by_cases h : buf.any (fun p => p.1 = rec.id.getD []) = true
        · rw [if_pos h]; simp
        · rw [if_neg h]; simp
      by_cases hflush : B ≤ (dictSet buf (rec.id.getD [])
          (buildRow (rec.id.getD []) rec)).length
      · have hstep : extractStep B (buf, bs) rec =
            ([], bs ++ [dictValues (dictSet buf (rec.id.getD [])
              (buildRow (rec.id.getD []) rec))]) := by
          unfold extractStep
          rw [if_pos hid, if_pos hflush]
        rw [hstep]
        apply ih
        · simpa using hB
        · intro b hb
          rcases List.mem_append.1 hb with hl | hr
          · exact h2 b hl
          · have : b = dictValues (dictSet buf (rec.id.getD [])
                (buildRow (rec.id.getD []) rec)) := by simpa using hr
            rw [this, dictValues_length]
            omega
      · have hstep : extractStep B (buf, bs) rec =
            (dictSet buf (rec.id.getD []) (buildRow (rec.id.getD []) rec), bs) := by
          unfold extractStep
          rw [if_pos hid, if_neg hflush]
        rw [hstep]
        exact ih _ _ (by omega) h2
    · have hstep : extractStep B (buf, bs) rec = (buf, bs) := by
        unfold extractStep
        rw [if_neg hid]
      rw [hstep]
      exact ih _ _ h1 h2

theorem updFirst_ok (cur : Option Cand) (start locRef : Option PyStr)
    (hs : truthy start = true → (parseDate (start.getD [])).isSome = true)
    (hc : ∀ c, cur = some c → (parseDate c.1).isSome = true) :
    updFirst cur start locRef =
      Except.ok (if truthy start then minStepStart cur (start.getD [], locRef)
        else cur) := by
  cases ht : truthy start with
  | false => simp [updFirst, ht]
  | true =>
    cases cur with
    | none => simp [updFirst, ht, minStepStart]
    | some c =>
      obtain ⟨ts, l⟩ := c
      obtain ⟨a, ha⟩ := Option.isSome_iff_exists.1 (hs ht)
      obtain ⟨b, hb⟩ := Option.isSome_iff_exists.1 (hc (ts, l) rfl)
      by_cases hab : a < b
      · simp [updFirst, ht, minStepStart, ha, hb, hab]
      · simp [updFirst, ht, minStepStart, ha, hb, hab]

theorem updLast_ok (cur : Option Cand) (end_ locRef : Option PyStr)
    (hs : truthy end_ = true → (parseDate (end_.getD [])).isSome = true)
    (hc : ∀ c, cur = some c → (parseDate c.1).isSome = true) :
    updLast cur end_ locRef =
      Except.ok (if truthy end_ then maxStepEnd cur (end_.getD [], locRef)
        else cur) := by
  cases ht : truthy end_ with
  | false => simp [updLast, ht]
  | true =>
    cases cur with
    | none => simp [updLast, ht, maxStepEnd]
    | some c =>
      obtain ⟨ts, l⟩ := c
      obtain ⟨a, ha⟩ := Option.isSome_iff_exists.1 (hs ht)
      obtain ⟨b, hb⟩ := Option.isSome_iff_exists.1 (hc (ts, l) rfl)
      by_cases hab : b < a
      · simp [updLast, ht, maxStepEnd, ha, hb, hab]
      · simp [updLast, ht, maxStepEnd, ha, hb, hab]

theorem updateEntry_inv {st : ActivityState} {start end_ locRef : Option PyStr}
    {st' : ActivityState} (h : updateEntry st start end_ locRef = Except.ok st') :
    updFirst st.first start locRef = Except.ok st'.first ∧
    updLast st.last end_ locRef = Except.ok st'.last := by
  unfold updateEntry at h
  cases hf : updFirst st.first start locRef with
  | error e => rw [hf] at h; exact absurd h (by simp)
  | ok f =>
    rw [hf] at h
    cases hl : updLast st.last end_ locRef with
    | error e => rw [hl] at h; exact absurd h (by simp)
    | ok l =>
      rw [hl] at h
      injection h with h2
      rw [← h2]
      exact ⟨rfl, rfl⟩

theorem minStepStart_idem (a : Option Cand) (c : Cand) :
    minStepStart (minStepStart a c) c = minStepStart a c := by
  cases a with
  | none => simp [minStepStart]
  | some a =>
    by_cases h : (parseDate c.1).getD 0 < (parseDate a.1).getD 0
    · simp [minStepStart, h]
    · simp [minStepStart, h]

theorem maxStepEnd_idem (a : Option Cand) (c : Cand) :
    maxStepEnd (maxStepEnd a c) c = maxStepEnd a c := by
  cases a with
  | none => simp [maxStepEnd]
  | some a =>
    by_cases h : (parseDate a.1).getD 0 < (parseDate c.1).getD 0
    · simp [maxStepEnd, h]
    · simp [maxStepEnd, h]

theorem minStepStart_mem (a : Option Cand) (c : Cand) (d : Cand)
    (h : minStepStart a c = some d) : d = c ∨ a = some d := by
  cases a with
  | none =>
    left
    simp [minStepStart] at h
    exact h.symm
  | some a =>
    by_cases hlt : (parseDate c.1).getD 0 < (parseDate a.1).getD 0
    · simp [minStepStart, hlt] at h
      left
      exact h.symm
    · simp [minStepStart, hlt] at h
      right
      rw [h]

theorem maxStepEnd_mem (a : Option Cand) (c : Cand) (d : Cand)
    (h : maxStepEnd a c = some d) : d = c ∨ a = some d := by
  cases a with
  | none =>
    left
    simp [maxStepEnd] at h
    exact h.symm
  | some a =>
    by_cases hlt : (parseDate a.1).getD 0 < (parseDate c.1).getD 0
    · simp [maxStepEnd, hlt] at h
      left
      exact h.symm
    · simp [maxStepEnd, hlt] at h
      right
      rw [h]

theorem FirstEvolves_refl (a : Option Cand) : FirstEvolves a a := Or.inl rfl

theorem LastEvolves_refl (a : Option Cand) : LastEvolves a a := Or.inl rfl

theorem FirstEvolves_trans {a b c : Option Cand}
    (h1 : FirstEvolves a b) (h2 : FirstEvolves b c) : FirstEvolves a c := by
  rcases h1 with h1 | h1 | ⟨ca, cb, hca, hcb, va, vb, hva, hvb, hlt⟩
  · subst h1
    exact h2
  · exact Or.inr (Or.inl h1)
  · rcases h2 with h2 | h2 | ⟨cb', cc, hcb', hcc, vb', vc, hvb', hvc, hlt'⟩
    · subst h2
      exact Or.inr (Or.inr ⟨ca, cb, hca, hcb, va, vb, hva, hvb, hlt⟩)
    · rw [hcb] at h2
      exact absurd h2 (by simp)
    · rw [hcb] at hcb'
      injection hcb' with he
      subst he
      rw [hvb] at hvb'
      injection hvb' with he2
      subst he2
      exact Or.inr (Or.inr ⟨ca, cc, hca, hcc, va, vc, hva, hvc, by omega⟩)

theorem LastEvolves_trans {a b c : Option Cand}
    (h1 : LastEvolves a b) (h2 : LastEvolves b c) : LastEvolves a c := by
  rcases h1 with h1 | h1 | ⟨ca, cb, hca, hcb, va, vb, hva, hvb, hlt⟩
  · subst h1
    exact h2
  · exact Or.inr (Or.inl h1)
  · rcases h2 with h2 | h2 | ⟨cb', cc, hcb', hcc, vb', vc, hvb', hvc, hlt'⟩
    · subst h2
      exact Or.inr (Or.inr ⟨ca, cb, hca, hcb, va, vb, hva, hvb, hlt⟩)
    · rw [hcb] at h2
      exact absurd h2 (by simp)
    · rw [hcb] at hcb'
      injection hcb' with he
      subst he
      rw [hvb] at hvb'
      injection hvb' with he2
      subst he2
      exact Or.inr (Or.inr ⟨ca, cc, hca, hcc, va, vc, hva, hvc, by omega⟩)

theorem updFirst_evolves {cur : Option Cand} {start locRef : Option PyStr}
    {res : Option Cand} (h : updFirst cur start locRef = Except.ok res) :
    FirstEvolves cur res := by
  unfold updFirst at h
  by_cases ht : truthy start = true
  · rw [if_pos ht] at h
    cases cur with
    | none =>
      exact Or.inr (Or.inl rfl)
    | some c =>
      obtain ⟨ts, l⟩ := c
      dsimp only at h
      cases ha : parseDate (start.getD []) with
      | none =>
        rw [ha] at h
        dsimp only at h
        exact absurd h (by simp)
      | some a =>
        rw [ha] at h
        cases hb : parseDate ts with
        | none =>
          rw [hb] at h
          dsimp only at h
          exact absurd h (by simp)
        | some b =>
          rw [hb] at h
          dsimp only at h
          by_cases hab : a < b
          · rw [if_pos hab] at h
            injection h with h2
            exact Or.inr (Or.inr ⟨(ts, l), (start.getD [], locRef), rfl, h2.symm,
              b, a, hb, ha, hab⟩)
          · rw [if_neg hab] at h
            injection h with h2
            exact Or.inl h2.symm
  · rw [if_neg ht] at h
    injection h with h2
    exact Or.inl h2.symm

theorem updLast_evolves {cur : Option Cand} {end_ locRef : Option PyStr}
    {res : Option Cand} (h : updLast cur end_ locRef = Except.ok res) :
    LastEvolves cur res := by
  unfold updLast at h
  by_cases ht : truthy end_ = true
  · rw [if_pos ht] at h
    cases cur with
    | none =>
      exact Or.inr (Or.inl rfl)
    | some c =>
      obtain ⟨ts, l⟩ := c
      dsimp only at h
      cases ha : parseDate (end_.getD []) with
      | none =>
        rw [ha] at h
        dsimp only at h
        exact absurd h (by simp)
      | some a =>
        rw [ha] at h
        cases hb : parseDate ts with
        | none =>
          rw [hb] at h
          dsimp only at h
          exact absurd h (by simp)
        | some b =>
          rw [hb] at h
          dsimp only at h
          by_cases hab : b < a
          · rw [if_pos hab] at h
            injection h with h2
            exact Or.inr (Or.inr ⟨(ts, l), (end_.getD [], locRef), rfl, h2.symm,
              b, a, hb, ha, hab⟩)
          · rw [if_neg hab] at h
            injection h with h2
            exact Or.inl h2.symm
  · rw [if_neg ht] at h
    injection h with h2
    exact Or.inl h2.symm

theorem entryFirst_actSet_ne (m : ActMap) (k : PyStr) (v : ActivityState)
    (pid : PyStr) (h : pid ≠ k) :
    entryFirst (actSet m k v) pid = entryFirst m pid := by
  simp [entryFirst, actSet, h]

theorem entryFirst_actSet_self (m : ActMap) (k : PyStr) (v : ActivityState) :
    entryFirst (actSet m k v) k = v.first := by
  simp [entryFirst, actSet]

theorem entryLast_actSet_ne (m : ActMap) (k : PyStr) (v : ActivityState)
    (pid : PyStr) (h : pid ≠ k) :
    entryLast (actSet m k v) pid = entryLast m pid := by
  simp [entryLast, actSet, h]

theorem entryLast_actSet_self (m : ActMap) (k : PyStr) (v : ActivityState) :
    entryLast (actSet m k v) k = v.last := by
  simp [entryLast, actSet]

theorem participantStep_evolves {start end_ locRef : Option PyStr} {m : ActMap}
    {p : Participant} {m' : ActMap}
    (h : participantStep start end_ locRef m p = Except.ok m') (pid : PyStr) :
    FirstEvolves (entryFirst m pid) (entryFirst m' pid) ∧
    LastEvolves (entryLast m pid) (entryLast m' pid) := by
  unfold participantStep at h
  cases hx : extractPid p with
  | none =>
    rw [hx] at h
    dsimp only at h
    injection h with h2
    rw [← h2]
    exact ⟨FirstEvolves_refl _, LastEvolves_refl _⟩
  | some pid0 =>
    rw [hx] at h
    dsimp only at h
    cases hm : m pid0 with
    | none =>
      rw [hm] at h
      dsimp only at h
      injection h with h2
      rw [← h2]
      by_cases hpid : pid = pid0
      · subst hpid
        have hf : entryFirst m pid = none := by simp [entryFirst, hm]
        have hl : entryLast m pid = none := by simp [entryLast, hm]
        rw [hf, hl, entryFirst_actSet_self, entryLast_actSet_self]
        exact ⟨Or.inr (Or.inl rfl), Or.inr (Or.inl rfl)⟩
      · rw [entryFirst_actSet_ne _ _ _ _ hpid, entryLast_actSet_ne _ _ _ _ hpid]
        exact ⟨FirstEvolves_refl _, LastEvolves_refl _⟩
    | some st =>
      rw [hm] at h
      dsimp only at h
      cases hu : updateEntry st start end_ locRef with
      | error e =>
        rw [hu] at h
        dsimp only [Except.map] at h
        exact absurd h (by simp)
      | ok st' =>
        rw [hu] at h
        dsimp only [Except.map] at h
        injection h with h2
        obtain ⟨hf, hl⟩ := updateEntry_inv hu
        rw [← h2]
        by_cases hpid : pid = pid0
        · subst hpid
          have hcf : entryFirst m pid = st.first := by simp [entryFirst, hm]
          have hcl : entryLast m pid = st.last := by simp [entryLast, hm]
          rw [entryFirst_actSet_self, entryLast_actSet_self, hcf, hcl]
          exact ⟨updFirst_evolves hf, updLast_evolves hl⟩
        · rw [entryFirst_actSet_ne _ _ _ _ hpid, entryLast_actSet_ne _ _ _ _ hpid]
          exact ⟨FirstEvolves_refl _, LastEvolves_refl _⟩

theorem foldl_participants_evolves {start end_ locRef : Option PyStr} :
    ∀ (ps : List Participant) (m m' : ActMap),
      ps.foldlM (participantStep start end_ locRef) m = Except.ok m' →
      ∀ pid, FirstEvolves (entryFirst m pid) (entryFirst m' pid) ∧
        LastEvolves (entryLast m pid) (entryLast m' pid) := by
  intro ps
  induction ps with
  | nil =>
    intro m m' h pid
    have h2 : Except.ok m = Except.ok m' := h
    injection h2 with h3
    rw [← h3]
    exact ⟨FirstEvolves_refl _, LastEvolves_refl _⟩
  | cons p ps ih =>
    intro m m' h pid
    rw [List.foldlM_cons] at h
    cases hstep : participantStep start end_ locRef m p with
    | error e =>
      rw [hstep] at h
      have h2 : (Except.error e : Except Unit ActMap) = Except.ok m' := h
      exact absurd h2 (by simp)
    | ok m1 =>
      rw [hstep] at h
      have h' : ps.foldlM (participantStep start end_ locRef) m1 = Except.ok m' := h
      have e1 := participantStep_evolves hstep pid
      have e2 := ih m1 m' h' pid
      exact ⟨FirstEvolves_trans e1.1 e2.1, LastEvolves_trans e1.2 e2.2⟩

theorem processRecord_evolves {m : ActMap} {rec : Encounter} {m' : ActMap}
    (h : processEncounterRecord m rec = Except.ok m') (pid : PyStr) :
    FirstEvolves (entryFirst m pid) (entryFirst m' pid) ∧
    LastEvolves (entryLast m pid) (entryLast m' pid) := by
  unfold processEncounterRecord at h
  by_cases hskip : truthy rec.start = false ∧ truthy rec.end_ = false
  · rw [if_pos hskip] at h
    injection h with h2
    rw [← h2]
    exact ⟨FirstEvolves_refl _, LastEvolves_refl _⟩
  · rw [if_neg hskip] at h
    exact foldl_participants_evolves _ _ _ h pid

theorem participantStep_char {start end_ locRef : Option PyStr} (m : ActMap)
    (p : Participant)
    (hs : truthy start = true → (parseDate (start.getD [])).isSome = true)
    (he : truthy end_ = true → (parseDate (end_.getD [])).isSome = true)
    (hm : StoredOK m) :
    ∃ m', participantStep start end_ locRef m p = Except.ok m' ∧ StoredOK m' ∧
      ∀ pid,
        (entryFirst m' pid =
          if extractPid p = some pid ∧ truthy start = true then
            minStepStart (entryFirst m pid) (start.getD [], locRef)
          else entryFirst m pid) ∧
        (entryLast m' pid =
          if extractPid p = some pid ∧ truthy end_ = true then
            maxStepEnd (entryLast m pid) (end_.getD [], locRef)
          else entryLast m pid) := by
  cases hx : extractPid p with
  | none =>
    refine ⟨m, by simp [participantStep, hx], hm, ?_⟩
    intro pid
    constructor
    · rw [if_neg (by simp)]
    · rw [if_neg (by simp)]
  | some pid0 =>
    cases hm0 : m pid0 with
    | none =>
      refine ⟨actSet m pid0
          ⟨if truthy start = true then some (start.getD [], locRef) else none,
           if truthy end_ = true then some (end_.getD [], locRef) else none⟩,
        by simp [participantStep, hx, hm0], ?_, ?_⟩
      · intro pid
        by_cases hpid : pid = pid0
        · subst hpid
          constructor
          · intro c hc
            rw [entryFirst_actSet_self] at hc
            dsimp only at hc
            by_cases ht : truthy start = true
            · rw [if_pos ht] at hc
              injection hc with hc2
              rw [← hc2]
              exact hs ht
            · rw [if_neg ht] at hc
              exact absurd hc (by simp)
          · intro c hc
            rw [entryLast_actSet_self] at hc
            dsimp only at hc
            by_cases ht : truthy end_ = true
            · rw [if_pos ht] at hc
              injection hc with hc2
              rw [← hc2]
              exact he ht
            · rw [if_neg ht] at hc
              exact absurd hc (by simp)
        · constructor
          · intro c hc
            rw [entryFirst_actSet_ne _ _ _ _ hpid] at hc
            exact (hm pid).1 c hc
          · intro c hc
            rw [entryLast_actSet_ne _ _ _ _ hpid] at hc
            exact (hm pid).2 c hc
      · intro pid
        by_cases hpid : pid = pid0
        · subst hpid
          have h0f : entryFirst m pid = none := by simp [entryFirst, hm0]
          have h0l : entryLast m pid = none := by simp [entryLast, hm0]
          constructor
          · rw [entryFirst_actSet_self]
            dsimp only
            by_cases ht : truthy start = true
            · simp [ht, h0f, minStepStart]
            · simp [ht, h0f]
          · rw [entryLast_actSet_self]
            dsimp only
            by_cases ht : truthy end_ = true
            · simp [ht, h0l, maxStepEnd]
            · simp [ht, h0l]
        · have hne : ¬((some pid0 : Option PyStr) = some pid ∧ truthy start = true) := by
            rintro ⟨hc, _⟩
            injection hc with hc2
            exact hpid hc2.symm
          have hne2 : ¬((some pid0 : Option PyStr) = some pid ∧ truthy end_ = true) := by
            rintro ⟨hc, _⟩
            injection hc with hc2
            exact hpid hc2.symm
          constructor
          · rw [entryFirst_actSet_ne _ _ _ _ hpid, if_neg hne]
          · rw [entryLast_actSet_ne _ _ _ _ hpid, if_neg hne2]
    | some st =>
      have hentf : entryFirst m pid0 = st.first := by simp [entryFirst, hm0]
      have hentl : entryLast m pid0 = st.last := by simp [entryLast, hm0]
      have hf := updFirst_ok st.first start locRef hs
        (by intro c hc; exact (hm pid0).1 c (by rw [hentf]; exact hc))
      have hl := updLast_ok st.last end_ locRef he
        (by intro c hc; exact (hm pid0).2 c (by rw [hentl]; exact hc))
      have hupd : updateEntry st start end_ locRef = Except.ok
          ⟨if truthy start = true then minStepStart st.first (start.getD [], locRef)
            else st.first,
           if truthy end_ = true then maxStepEnd st.last (end_.getD [], locRef)
            else st.last⟩ := by
        unfold updateEntry
        rw [hf, hl]
      refine ⟨actSet m pid0
          ⟨if truthy start = true then minStepStart st.first (start.getD [], locRef)
            else st.first,
           if truthy end_ = true then maxStepEnd st.last (end_.getD [], locRef)
            else st.last⟩,
        by simp [participantStep, hx, hm0, hupd, Except.map], ?_, ?_⟩
      · intro pid
        by_cases hpid : pid = pid0
        · subst hpid
          constructor
          · intro c hc
            rw [entryFirst_actSet_self] at hc
            dsimp only at hc
            by_cases ht : truthy start = true
            · rw [if_pos ht] at hc
              rcases minStepStart_mem _ _ _ hc with h | h
              · rw [h]
                exact hs ht
              · exact (hm pid).1 c (by rw [hentf]; exact h)
            · rw [if_neg ht] at hc
              exact (hm pid).1 c (by rw [hentf]; exact hc)
          · intro c hc
            rw [entryLast_actSet_self] at hc
            dsimp only at hc
            by_cases ht : truthy end_ = true
            · rw [if_pos ht] at hc
              rcases maxStepEnd_mem _ _ _ hc with h | h
              · rw [h]
                exact he ht
              · exact (hm pid).2 c (by rw [hentl]; exact h)
            · rw [if_neg ht] at hc
              exact (hm pid).2 c (by rw [hentl]; exact hc)
        · constructor
          · intro c hc
            rw [entryFirst_actSet_ne _ _ _ _ hpid] at hc
            exact (hm pid).1 c hc
          · intro c hc
            rw [entryLast_actSet_ne _ _ _ _ hpid] at hc
            exact (hm pid).2 c hc
      · intro pid
        by_cases hpid : pid = pid0
        · subst hpid
          constructor
          · rw [entryFirst_actSet_self]
            dsimp only
            by_cases ht : truthy start = true
            · rw [if_pos ht, if_pos ⟨rfl, ht⟩, hentf]
            · rw [if_neg ht, if_neg (by rintro ⟨_, hc⟩; exact ht hc), hentf]
          · rw [entryLast_actSet_self]
            dsimp only
            by_cases ht : truthy end_ = true
            · rw [if_pos ht, if_pos ⟨rfl, ht⟩, hentl]
            · rw [if_neg ht, if_neg (by rintro ⟨_, hc⟩; exact ht hc), hentl]
        · have hne : ¬((some pid0 : Option PyStr) = some pid ∧ truthy start = true) := by
            rintro ⟨hc, _⟩
            injection hc with hc2
            exact hpid hc2.symm
          have hne2 : ¬((some pid0 : Option PyStr) = some pid ∧ truthy end_ = true) := by
            rintro ⟨hc, _⟩
            injection hc with hc2
            exact hpid hc2.symm
          constructor
          · rw [entryFirst_actSet_ne _ _ _ _ hpid, if_neg hne]
          · rw [entryLast_actSet_ne _ _ _ _ hpid, if_neg hne2]

theorem foldl_participants_char {start end_ locRef : Option PyStr} :
    ∀ (ps : List Participant) (m : ActMap),
      (truthy start = true → (parseDate (start.getD [])).isSome = true) →
      (truthy end_ = true → (parseDate (end_.getD [])).isSome = true) →
      StoredOK m →
      ∃ m', ps.foldlM (participantStep start end_ locRef) m = Except.ok m' ∧
        StoredOK m' ∧
        ∀ pid,
          (entryFirst m' pid =
            if ps.any (fun p => extractPid p = some pid) ∧ truthy start = true then
              minStepStart (entryFirst m pid) (start.getD [], locRef)
            else entryFirst m pid) ∧
          (entryLast m' pid =
            if ps.any (fun p => extractPid p = some pid) ∧ truthy end_ = true then
              maxStepEnd (entryLast m pid) (end_.getD [], locRef)
            else entryLast m pid) := by
  intro ps
  induction ps with
  | nil =>
    intro m hs he hm
    refine ⟨m, rfl, hm, ?_⟩
    intro pid
    constructor
    · rw [if_neg (by simp)]
    · rw [if_neg (by simp)]
  | cons p ps ih =>
    intro m hs he hm
    obtain ⟨m1, h1, hsm1, hc1⟩ := participantStep_char m p hs he hm
    obtain ⟨m', h2, hsm', hc2⟩ := ih m1 hs he hsm1
    refine ⟨m', ?_, hsm', ?_⟩
    · rw [List.foldlM_cons, h1]
      exact h2
    · intro pid
      have e1 := hc1 pid
      have e2 := hc2 pid
      constructor
      · rw [e2.1, e1.1, List.any_cons]
        by_cases ht : truthy start = true
        · by_cases hp : extractPid p = some pid
          · by_cases hany : (ps.any fun q => decide (extractPid q = some pid)) = true
            · simp [ht, hp, hany, minStepStart_idem]
            · simp [ht, hp, hany]
          · by_cases hany : (ps.any fun q => decide (extractPid q = some pid)) = true
            · simp [ht, hp, hany]
            · simp [ht, hp, hany]
        · simp [ht]
      · rw [e2.2, e1.2, List.any_cons]
        by_cases ht : truthy end_ = true
        · by_cases hp : extractPid p = some pid
          · by_cases hany : (ps.any fun q => decide (extractPid q = some pid)) = true
            · simp [ht, hp, hany, maxStepEnd_idem]
            · simp [ht, hp, hany]
          · by_cases hany : (ps.any fun q => decide (extractPid q = some pid)) = true
            · simp [ht, hp, hany]
            · simp [ht, hp, hany]
        · simp [ht]

theorem processRecord_char (m : ActMap) (rec : Encounter)
    (hrec : recParseOK rec) (hm : StoredOK m) :
    ∃ m', processEncounterRecord m rec = Except.ok m' ∧ StoredOK m' ∧
      ∀ pid,
        (entryFirst m' pid =
          if participates rec pid ∧ truthy rec.start = true then
            minStepStart (entryFirst m pid) (rec.start.getD [], encLocRef rec)
          else entryFirst m pid) ∧
        (entryLast m' pid =
          if participates rec pid ∧ truthy rec.end_ = true then
            maxStepEnd (entryLast m pid) (rec.end_.getD [], encLocRef rec)
          else entryLast m pid) := by
  by_cases hskip : truthy rec.start = false ∧ truthy rec.end_ = false
  · refine ⟨m, by simp [processEncounterRecord, hskip], hm, ?_⟩
    intro pid
    constructor
    · rw [if_neg (by rintro ⟨_, hc⟩; rw [hskip.1] at hc; exact absurd hc (by simp))]
    · rw [if_neg (by rintro ⟨_, hc⟩; rw [hskip.2] at hc; exact absurd hc (by simp))]
  · obtain ⟨m', h1, h2, h3⟩ :=
      foldl_participants_char rec.participant m hrec.1 hrec.2 hm
    refine ⟨m', ?_, h2, ?_⟩
    · simp only [processEncounterRecord, if_neg hskip]
      exact h1
    · intro pid
      exact h3 pid

theorem startCands_cons (r : Encounter) (rest : List Encounter) (pid : PyStr) :
    startCands (r :: rest) pid =
      (if participates r pid ∧ truthy r.start then
        [(r.start.getD [], encLocRef r)] else []) ++ startCands rest pid := by
  unfold startCands
  rw [List.filterMap_cons]
  by_cases h : participates r pid ∧ truthy r.start
  · simp [h]
  · simp [h]

theorem endCands_cons (r : Encounter) (rest : List Encounter) (pid : PyStr) :
    endCands (r :: rest) pid =
      (if participates r pid ∧ truthy r.end_ then
        [(r.end_.getD [], encLocRef r)] else []) ++ endCands rest pid := by
  unfold endCands
  rw [List.filterMap_cons]
  by_cases h : participates r pid ∧ truthy r.end_
  · simp [h]
  · simp [h]

theorem buildLoop :
    ∀ (recs : List Encounter) (m : ActMap), AllParseable recs → StoredOK m →
      ∃ m', recs.foldlM processEncounterRecord m = Except.ok m' ∧ StoredOK m' ∧
        ∀ pid,
          entryFirst m' pid =
            (startCands recs pid).foldl minStepStart (entryFirst m pid) ∧
          entryLast m' pid =
            (endCands recs pid).foldl maxStepEnd (entryLast m pid) := by
  intro recs
  induction recs with
  | nil =>
    intro m _ hm
    exact ⟨m, rfl, hm, fun pid => ⟨rfl, rfl⟩⟩
  | cons r rest ih =>
    intro m hall hm
    obtain ⟨m1, h1, hsm1, hc1⟩ :=
      processRecord_char m r (hall r (List.mem_cons_self r rest)) hm
    obtain ⟨m', h2, hsm', hc2⟩ :=
      ih m1 (fun x hx => hall x (List.mem_cons_of_mem r hx)) hsm1
    refine ⟨m', ?_, hsm', ?_⟩
    · rw [List.foldlM_cons, h1]
      exact h2
    · intro pid
      constructor
      · rw [(hc2 pid).1, (hc1 pid).1, startCands_cons, List.foldl_append]
        by_cases hcond : participates r pid ∧ truthy r.start
        · rw [if_pos hcond, if_pos ⟨hcond.1, hcond.2⟩]
          rfl
        · rw [if_neg hcond, if_neg (fun hc => hcond ⟨hc.1, hc.2⟩)]
          rfl
      · rw [(hc2 pid).2, (hc1 pid).2, endCands_cons, List.foldl_append]
        by_cases hcond : participates r pid ∧ truthy r.end_
        · rw [if_pos hcond, if_pos ⟨hcond.1, hcond.2⟩]
          rfl
        · rw [if_neg hcond, if_neg (fun hc => hcond ⟨hc.1, hc.2⟩)]
          rfl

/-- C1 (amended): over any stream whose present period timestamps all parse,
once the stream is consumed each provider's `first` is the earliest start
(with that encounter's location reference; the first encounter wins ties)
among the encounters listing it as a Practitioner participant, and `last` is
the latest end likewise; during the scan a successful record step only moves
`first` earlier or sets it from absent, and `last` later or from absent; the
concrete 2019-06-15 / 2021-05-01 examples hold. -/
theorem C1_activity_extremes :
    (∀ recs : List Encounter, AllParseable recs →
      ∃ m, buildActivityMap recs = Except.ok m ∧
        ∀ pid, entryFirst m pid = specEarliestStart recs pid ∧
          entryLast m pid = specLatestEnd recs pid) ∧
    (∀ (m : ActMap) (rec : Encounter) (m' : ActMap),
      processEncounterRecord m rec = Except.ok m' →
      ∀ pid, FirstEvolves (entryFirst m pid) (entryFirst m' pid) ∧
        LastEvolves (entryLast m pid) (entryLast m' pid)) ∧
    (buildActivityMap demoEncounters).map
        (fun m => (entryFirst m "p".data, entryLast m "p".data)) =
      Except.ok (some ("2019-06-15".data, none), some ("2021-05-01".data, none)) := by
  refine ⟨?_, ?_, ?_⟩
  · intro recs hall
    obtain ⟨m, h1, _, h3⟩ := buildLoop recs emptyActMap hall
      (fun pid => ⟨fun c hc => absurd hc (by simp [entryFirst, emptyActMap]),
        fun c hc => absurd hc (by simp [entryLast, emptyActMap])⟩)
    exact ⟨m, h1, fun pid => ⟨(h3 pid).1, (h3 pid).2⟩⟩
  · intro m rec m' h pid
    exact processRecord_evolves h pid
  · rfl

/-- Witness: the C1 theorem applied to the demonstration stream. -/
theorem C1_activity_extremes_witness :
    AllParseable demoEncounters ∧
    ∃ m, buildActivityMap demoEncounters = Except.ok m ∧
      entryFirst m "p".data = specEarliestStart demoEncounters "p".data ∧
      entryLast m "p".data = specLatestEnd demoEncounters "p".data := by
  have hall : AllParseable demoEncounters := by decide
  obtain ⟨m, h1, h2⟩ := C1_activity_extremes.1 demoEncounters hall
  exact ⟨hall, m, h1, (h2 "p".data).1, (h2 "p".data).2⟩

/-- C1 counterexample to the claim as stated: a fully consumed stream whose
only start is unparseable ends with that unparseable value stored as
`first`, although no parseable `period.start` exists at all. -/
theorem C1_counterexample :
    (buildActivityMap
        [⟨some "not-a-timestamp".data, none, [],
          [⟨some "Practitioner/p".data⟩]⟩]).map
        (fun m => entryFirst m "p".data) =
      Except.ok (some ("not-a-timestamp".data, none)) ∧
    parseDate "not-a-timestamp".data = none :=
  ⟨rfl, rfl⟩

/-- C2: an unparseable timestamp that reaches a `dt_parse` comparison aborts
the whole aggregation (uncaught exception) instead of skipping only that
record's update. -/
theorem C2_unparseable_timestamp_aborts :
    buildActivityMap
      [⟨some "2020-01-01".data, none, [], [⟨some "Practitioner/p".data⟩]⟩,
       ⟨some "not-a-timestamp".data, none, [],
         [⟨some "Practitioner/p".data⟩]⟩] =
      Except.error () := rfl

/-- C4: the merge enrichment raises `TypeError` for a provider whose
activity entry exists with `first = None` (first conjunct), and an absent
location reference resolves through the absent lookup key, yielding a
non-absent address when an id-less location record was indexed (second
conjunct) — contradicting "absent and never an error". -/
theorem C4_merge_crash :
    enrichRow (actSet emptyActMap "p".data ⟨none, some ("2020-01-01".data, none)⟩)
        emptyLookup (buildRow "p".data ⟨some "p".data, [], [], [], none, []⟩) =
      Except.error () ∧
    (enrichRow emptyActMap
        (buildLocationLookup [⟨none, none, some ⟨["123 Main St".data],
          some "Springfield".data, none, none, none⟩⟩])
        (buildRow "p".data ⟨some "p".data, [], [], [], none, []⟩)).map
        (fun er => (er.first_activity_location, er.first_activity_address)) =
      Except.ok (none, some "123 Main St, Springfield".data) :=
  ⟨rfl, rfl⟩

theorem dropDupFirst_spec :
    ∀ (rows : List EnrichedRow) (seen : List PyStr),
      List.Sublist (dropDupFirst rows seen) rows ∧
      (∀ pid, pid ∉ seen →
        (dropDupFirst rows seen).find? (fun r => r.base.provider_id = pid) =
          rows.find? (fun r => r.base.provider_id = pid)) ∧
      (∀ r ∈ dropDupFirst rows seen, r.base.provider_id ∉ seen) ∧
      ((dropDupFirst rows seen).map (fun r => r.base.provider_id)).Nodup := by
  intro rows
  induction rows with
  | nil =>
    intro seen
    exact ⟨List.Sublist.refl [], fun pid _ => rfl, by simp [dropDupFirst],
      List.nodup_nil⟩
  | cons r rs ih =>
    intro seen
    by_cases hmem : r.base.provider_id ∈ seen
    · have hred : dropDupFirst (r :: rs) seen = dropDupFirst rs seen := by
        simp only [dropDupFirst]
        rw [if_pos hmem]
      obtain ⟨s1, s2, s3, s4⟩ := ih seen
      refine ⟨?_, ?_, ?_, ?_⟩
      · rw [hred]
        exact s1.cons r
      · intro pid hpid
        have hne : ¬(r.base.provider_id = pid) := fun h => hpid (h ▸ hmem)
        rw [hred, s2 pid hpid, List.find?_cons_of_neg _ (by simpa using hne)]
      · intro x hx
        rw [hred] at hx
        exact s3 x hx
      · rw [hred]
        exact s4
    · have hred : dropDupFirst (r :: rs) seen =
          r :: dropDupFirst rs (r.base.provider_id :: seen) := by
        simp only [dropDupFirst]
        rw [if_neg hmem]
      obtain ⟨s1, s2, s3, s4⟩ := ih (r.base.provider_id :: seen)
      refine ⟨?_, ?_, ?_, ?_⟩
      · rw [hred]
        exact s1.cons₂ r
      · intro pid hpid
        rw [hred]
        by_cases hp : r.base.provider_id = pid
        · rw [List.find?_cons_of_pos _ (by simpa using hp),
            List.find?_cons_of_pos _ (by simpa using hp)]
        · rw [List.find?_cons_of_neg _ (by simpa using hp),
            List.find?_cons_of_neg _ (by simpa using hp)]
          exact s2 pid (by
            intro hc
            rcases List.mem_cons.1 hc with hc | hc
            · exact hp hc.symm
            · exact hpid hc)
      · intro x hx
        rw [hred] at hx
        rcases List.mem_cons.1 hx with hx | hx
        · rw [hx]
          exact hmem
        · intro hc
          exact s3 x hx (List.mem_cons_of_mem _ hc)
      · rw [hred, List.map_cons, List.nodup_cons]
        constructor
        · intro hc
          obtain ⟨x, hx, hxe⟩ := List.mem_map.1 hc
          exact s3 x hx (by rw [hxe]; exact List.mem_cons_self _ _)
        · exact s4

/-- C5 counterexample: a batch with two rows for the same provider id keeps
the FIRST occurrence after dedup, not the last (pandas default
`keep='first'`). -/
theorem C5_counterexample :
    dropDuplicatesByProviderId
        [⟨⟨"p".data, none, "N1".data, none, none, [], none⟩,
          none, none, none, none, none, none⟩,
         ⟨⟨"p".data, none, "N2".data, none, none, [], none⟩,
          none, none, none, none, none, none⟩] =
      [⟨⟨"p".data, none, "N1".data, none, none, [], none⟩,
        none, none, none, none, none, none⟩] ∧
    (⟨⟨"p".data, none, "N1".data, none, none, [], none⟩,
      none, none, none, none, none, none⟩ : EnrichedRow) ≠
      ⟨⟨"p".data, none, "N2".data, none, none, [], none⟩,
        none, none, none, none, none, none⟩ :=
  ⟨by decide, by decide⟩

/-- C5 (amended): the per-batch deduplication keeps the *first* occurrence
of each provider id (pandas `drop_duplicates` default) and drops the later
ones: the output is a sublist of the batch, the first row found for any
provider id is unchanged, and output ids are pairwise distinct. -/
theorem C5_dedup_keeps_first (rows : List EnrichedRow) :
    List.Sublist (dropDuplicatesByProviderId rows) rows ∧
    (∀ pid, (dropDuplicatesByProviderId rows).find?
        (fun r => r.base.provider_id = pid) =
      rows.find? (fun r => r.base.provider_id = pid)) ∧
    ((dropDuplicatesByProviderId rows).map
      (fun r => r.base.provider_id)).Nodup := by
  obtain ⟨s1, s2, _, s4⟩ := dropDupFirst_spec rows []
  exact ⟨s1, fun pid => s2 pid (List.not_mem_nil pid), s4⟩

theorem enrichRow_base {am : ActMap} {lookup : Option PyStr → Option PyStr}
    {row : Row} {er : EnrichedRow}
    (h : enrichRow am lookup row = Except.ok er) : er.base = row := by
  unfold enrichRow at h
  cases hf : firstFields am row.provider_id with
  | error e => rw [hf] at h; exact absurd h (by simp)
  | ok f =>
    rw [hf] at h
    cases hl : lastFields am row.provider_id with
    | error e => rw [hl] at h; exact absurd h (by simp)
    | ok l =>
      rw [hl] at h
      injection h with h2
      rw [← h2]

theorem mapM_enrich_bases (am : ActMap) (lookup : Option PyStr → Option PyStr) :
    ∀ (rows : List Row) (ers : List EnrichedRow),
      rows.mapM (enrichRow am lookup) = Except.ok ers →
      ers.map EnrichedRow.base = rows := by
  intro rows
  induction rows with
  | nil =>
    intro ers h
    rw [List.mapM_nil] at h
    have h2 : Except.ok ([] : List EnrichedRow) = Except.ok ers := h
    injection h2 with h3
    rw [← h3]
    rfl
  | cons r rs ih =>
    intro ers h
    rw [List.mapM_cons] at h
    cases he : enrichRow am lookup r with
    | error e =>
      rw [he] at h
      have h2 : (Except.error e : Except Unit (List EnrichedRow)) = Except.ok ers := h
      exact absurd h2 (by simp)
    | ok er =>
      rw [he] at h
      cases hrs : rs.mapM (enrichRow am lookup) with
      | error e =>
        rw [hrs] at h
        have h2 : (Except.error e : Except Unit (List EnrichedRow)) = Except.ok ers := h
        exact absurd h2 (by simp)
      | ok ers' =>
        rw [hrs] at h
        have h2 : Except.ok (er :: ers') = Except.ok ers := h
        injection h2 with h3
        rw [← h3, List.map_cons, ih ers' hrs, enrichRow_base he]

theorem dropDupFirst_noop :
    ∀ (rows : List EnrichedRow) (seen : List PyStr),
      (∀ r ∈ rows, r.base.provider_id ∉ seen) →
      (rows.map (fun r => r.base.provider_id)).Nodup →
      dropDupFirst rows seen = rows := by
  intro rows
  induction rows with
  | nil => intro seen _ _; rfl
  | cons r rs ih =>
    intro seen hfr hnd
    have hmem : r.base.provider_id ∉ seen := hfr r (List.mem_cons_self r rs)
    simp only [dropDupFirst]
    rw [if_neg hmem]
    rw [List.map_cons, List.nodup_cons] at hnd
    congr 1
    apply ih
    · intro x hx hc
      rcases List.mem_cons.1 hc with hc | hc
      · exact hnd.1 (by rw [← hc]; exact List.mem_map_of_mem _ hx)
      · exact hfr x (List.mem_cons_of_mem r hx) hc
    · exact hnd.2

theorem enrichBatch_length {am : ActMap} {lookup : Option PyStr → Option PyStr}
    {rows : List Row} {ers : List EnrichedRow}
    (h : enrichBatch am lookup rows = Except.ok ers)
    (hnd : NodupIds rows) : ers.length = rows.length := by
  unfold enrichBatch at h
  cases hm : rows.mapM (enrichRow am lookup) with
  | error e => rw [hm] at h; exact absurd h (by simp)
  | ok ers0 =>
    rw [hm] at h
    injection h with h2
    have hb := mapM_enrich_bases am lookup rows ers0 hm
    have hids : ers0.map (fun r => r.base.provider_id) = rows.map Row.provider_id := by
      rw [← hb, List.map_map]
      rfl
    have hnd0 : (ers0.map (fun r => r.base.provider_id)).Nodup := by
      rw [hids]
      exact hnd
    have hnoop : dropDuplicatesByProviderId ers0 = ers0 :=
      dropDupFirst_noop ers0 [] (fun r _ => List.not_mem_nil _) hnd0
    rw [← h2]
    show (dropDuplicatesByProviderId ers0).length = rows.length
    rw [hnoop, ← hb, List.length_map]

theorem mergeRun_length :
    ∀ (batches : List (List Row)) (am : ActMap)
      (lookup : Option PyStr → Option PyStr) (acc out : List EnrichedRow),
      (∀ b ∈ batches, NodupIds b) →
      batches.foldlM (mergeStep am lookup) acc = Except.ok out →
      out.length = acc.length + totalRows batches := by
  intro batches
  induction batches with
  | nil =>
    intro am lookup acc out _ h
    have h2 : Except.ok acc = Except.ok out := h
    injection h2 with h3
    rw [← h3]
    simp [totalRows]
  | cons b bs ih =>
    intro am lookup acc out hnd h
    rw [List.foldlM_cons] at h
    cases he : mergeStep am lookup acc b with
    | error e =>
      rw [he] at h
      have h2 : (Except.error e : Except Unit (List EnrichedRow)) = Except.ok out := h
      exact absurd h2 (by simp)
    | ok acc1 =>
      rw [he] at h
      have h' : bs.foldlM (mergeStep am lookup) acc1 = Except.ok out := h
      unfold mergeStep at he
      cases heb : enrichBatch am lookup b with
      | error e => rw [heb] at he; exact absurd he (by simp)
      | ok ers =>
        rw [heb] at he
        injection he with he2
        have hlen := enrichBatch_length heb (hnd b (List.mem_cons_self b bs))
        have hrec := ih am lookup acc1 out
          (fun x hx => hnd x (List.mem_cons_of_mem b hx)) h'
        rw [hrec, ← he2, List.length_append, hlen]
        unfold totalRows
        rw [List.map_cons, List.sum_cons]
        omega

/-- C6: with buffer threshold 2 and N provider records (distinct ids, per
the data model's unique-key precondition), extraction yields ceil(N/2)
batches; every batch of any positive threshold B holds at most B rows; the
batches carry exactly N rows in total; and any successful merge of them
outputs exactly N rows. -/
theorem C6_batch_counts (recs : List PractRecord) (hv : ValidDistinct recs) :
    (extractRun 2 recs).2.length = (recs.length + 1) / 2 ∧
    (∀ B, 0 < B → ∀ b ∈ (extractRun B recs).2, b.length ≤ B) ∧
    totalRows (extractRun 2 recs).2 = recs.length ∧
    (∀ (am : ActMap) (lookup : Option PyStr → Option PyStr)
      (out : List EnrichedRow),
      mergeRun (extractRun 2 recs).2 am lookup = Except.ok out →
      out.length = recs.length) := by
  obtain ⟨hv1, hv2⟩ := hv
  obtain ⟨c1, c2, c3⟩ := extract_loop_count recs [] []
    (by simp) hv1 hv2 (by intro r _ h; simp [dictKeys] at h)
  have hTR0 : totalRows ([] : List (List Row)) = 0 := rfl
  have hkey :
      (extractRun 2 recs).2.length = (recs.length + 1) / 2 ∧
      totalRows (extractRun 2 recs).2 = recs.length := by
    unfold extractRun
    by_cases hemp : (recs.foldl (extractStep 2) ([], [])).1.isEmpty = true
    · rw [if_pos hemp]
      have hlen0 : (recs.foldl (extractStep 2) ([], [])).1.length = 0 := by
        cases hl : (recs.foldl (extractStep 2) ([], [])).1 with
        | nil => rfl
        | cons x xs =>
          rw [hl] at hemp
          exact absurd hemp (by simp)
      simp only [List.length_nil] at c1 c2 c3
      constructor
      · omega
      · omega
    · rw [if_neg hemp]
      dsimp only
      have hlen1 : (recs.foldl (extractStep 2) ([], [])).1.length ≠ 0 := by
        intro hc
        rw [List.length_eq_zero] at hc
        rw [hc] at hemp
        exact hemp rfl
      have happ : ((recs.foldl (extractStep 2) ([], [])).2 ++
          [dictValues (recs.foldl (extractStep 2) ([], [])).1]).length =
          (recs.foldl (extractStep 2) ([], [])).2.length + 1 := by simp
      have htr := totalRows_append1 (recs.foldl (extractStep 2) ([], [])).2
        (dictValues (recs.foldl (extractStep 2) ([], [])).1)
      have hdv := dictValues_length (recs.foldl (extractStep 2) ([], [])).1
      simp only [List.length_nil] at c1 c2 c3
      constructor
      · omega
      · omega
  refine ⟨hkey.1, ?_, hkey.2, ?_⟩
  · intro B hB b hb
    obtain ⟨s1, s2⟩ := extract_loop_size B hB recs [] [] (by simpa using hB)
      (by intro x hx; exact absurd hx (List.not_mem_nil x))
    unfold extractRun at hb
    by_cases hemp : (recs.foldl (extractStep B) ([], [])).1.isEmpty = true
    · rw [if_pos hemp] at hb
      exact s2 b hb
    · rw [if_neg hemp] at hb
      rcases List.mem_append.1 hb with hl | hr
      · exact s2 b hl
      · have hbv : b = dictValues (recs.foldl (extractStep B) ([], [])).1 := by
          simpa using hr
        rw [hbv, dictValues_length]
        omega
  · intro am lookup out hmerge
    have hnd := extractRun_batches_nodup 2 recs
    have hlen := mergeRun_length (extractRun 2 recs).2 am lookup [] out hnd hmerge
    rw [hlen, hkey.2]
    simp

/-- Witness: C6 at three concrete provider records (two batches: one of two
rows and a final one of one row; the merged output has all three rows). -/
theorem C6_batch_counts_witness :
    ValidDistinct demoPracts ∧
    (extractRun 2 demoPracts).2.length = (demoPracts.length + 1) / 2 ∧
    totalRows (extractRun 2 demoPracts).2 = demoPracts.length ∧
    ([⟨buildRow "p1".data ⟨some "p1".data, [], [], [], none, []⟩,
        none, none, none, none, none, none⟩,
      ⟨buildRow "p2".data ⟨some "p2".data, [], [], [], none, []⟩,
        none, none, none, none, none, none⟩,
      ⟨buildRow "p3".data ⟨some "p3".data, [], [], [], none, []⟩,
        none, none, none, none, none, none⟩] : List EnrichedRow).length =
      demoPracts.length := by
  have hv : ValidDistinct demoPracts := by decide
  refine ⟨hv, (C6_batch_counts demoPracts hv).1,
    (C6_batch_counts demoPracts hv).2.2.1, ?_⟩
  exact (C6_batch_counts demoPracts hv).2.2.2 emptyActMap emptyLookup _ (by rfl)

/-- C7: when checkpoint batch artifacts from a prior run exist the pipeline
fails with FatalPrecondition for *every* choice of the three source streams
(so none of them is consumed); with none present the guard does not fire —
the run equals the staged pipeline, which never yields FatalPrecondition. -/
theorem C7_run_guard :
    (∀ (n : Nat), 0 < n → ∀ locs practs encs B,
      runPipeline n locs practs encs B =
        Except.error PipelineError.fatalPrecondition) ∧
    (∀ locs practs encs B, runPipeline 0 locs practs encs B =
      pipelineStages locs practs encs B) ∧
    (∀ locs practs encs B, runPipeline 0 locs practs encs B ≠
      Except.error PipelineError.fatalPrecondition) := by
  refine ⟨?_, ?_, ?_⟩
  · intro n hn locs practs encs B
    unfold runPipeline
    rw [if_pos (by omega)]
  · intro locs practs encs B
    unfold runPipeline
    rw [if_neg (by omega)]
  · intro locs practs encs B
    unfold runPipeline
    rw [if_neg (by omega)]
    unfold pipelineStages
    cases hb : buildActivityMap encs with
    | error e => simp [hb]
    | ok am =>
      cases hm : mergeRun (extractRun B practs).2 am (buildLocationLookup locs) with
      | error e => simp [hb, hm]
      | ok out => simp [hb, hm]

/-- Witness: C7 with one stale batch file and empty streams. -/
theorem C7_run_guard_witness :
    0 < 1 ∧ runPipeline 1 [] [] [] 2 =
      Except.error PipelineError.fatalPrecondition :=
  ⟨by decide, C7_run_guard.1 1 (by decide) [] [] [] 2⟩
